import Mathlib

/-!
Verification development for the afmformats JPK reader core
(`afmformats/formats/fmt_jpk/jpk_reader.py`, `afmformats/mod_force_distance.py`).

The Python code is shallowly embedded: Python dicts become association lists
with Python's lookup/insert/update semantics, Python floats become exact
rationals (`Rat`), fallible code returns `Except PyErr`.  Every definition is
translated from the source file it names in its doc comment.
-/

/-- Errors raised by the embedded Python code.  Mirrors the exception classes
used in `jpk_reader.py` / `mod_force_distance.py`. -/
inductive PyErr where
  | missingMeta (key : String)      -- jpk_meta.ReadJPKMetaKeyError
  | keyError (key : String)         -- KeyError (dict lookup miss)
  | valueError (msg : String)       -- ValueError
  | typeError                       -- TypeError (bad operand types)
  | zeroDivision                    -- ZeroDivisionError
  | indexError (msg : String)       -- IndexError
  | notImplementedError (msg : String)
  | overflowError
deriving DecidableEq

/-- Values held in property/metadata tables: Python `str`, `float`
(as an exact rational; `float('inf')` carried separately) and `int`.
`NaN` never ends up stored (the coercion step of
`_get_index_segment_properties` removes NaN entries). -/
inductive PVal where
  | str (s : String)
  | num (q : Rat)
  | int (n : Int)
  | inf (neg : Bool)
deriving DecidableEq

deriving instance DecidableEq for Except

/-- Association-list lookup: Python `d[k]` / `k in d` (dicts never hold
duplicate keys; lists produced by the operations below keep the first
binding authoritative). -/
def alookup {α : Type} (d : List (String × α)) (k : String) : Option α :=
  match d with
  | [] => none
  | (k0, v0) :: rest => if k0 = k then some v0 else alookup rest k

/-- Python `k in d`. -/
def acontains {α : Type} (d : List (String × α)) (k : String) : Bool :=
  (alookup d k).isSome

/-- Python `d[k] = v`: replace in place if present (keeping the key's
position, as Python dicts do), else append as the newest binding. -/
def ainsert {α : Type} (d : List (String × α)) (k : String) (v : α) :
    List (String × α) :=
  match d with
  | [] => [(k, v)]
  | (k0, v0) :: rest =>
      if k0 = k then (k0, v) :: rest else (k0, v0) :: ainsert rest k v

/-- Python `d.update(e)`: fold `d[k] = v` over `e` in order. -/
def aupdate {α : Type} (d e : List (String × α)) : List (String × α) :=
  e.foldl (fun acc kv => ainsert acc kv.1 kv.2) d

/-- Python `d.pop(k)` (the removal part): drop the binding for `k`. -/
def apop {α : Type} (d : List (String × α)) (k : String) : List (String × α) :=
  d.filter (fun kv => kv.1 ≠ k)

/-- Python `d[k]` as a fallible read (raises `KeyError` when absent). -/
def agetE {α : Type} (d : List (String × α)) (k : String) : Except PyErr α :=
  match alookup d k with
  | some v => .ok v
  | none => .error (.keyError k)

/-- A Python dict with string keys and property/metadata values. -/
abbrev PDict := List (String × PVal)

/-- Python `x + y` on table values: numbers add, ints stay ints,
strings concatenate, mixed string/number raises `TypeError`.
Infinite floats are outside the fragment exercised by this program's
metadata tables and are rejected. -/
def addV : PVal → PVal → Except PyErr PVal
  | .num a, .num b => .ok (.num (a + b))
  | .num a, .int b => .ok (.num (a + b))
  | .int a, .num b => .ok (.num (a + b))
  | .int a, .int b => .ok (.int (a + b))
  | .str a, .str b => .ok (.str (a ++ b))
  | _, _ => .error .typeError

/-- Python `x - y` on table values. -/
def subV : PVal → PVal → Except PyErr PVal
  | .num a, .num b => .ok (.num (a - b))
  | .num a, .int b => .ok (.num (a - b))
  | .int a, .num b => .ok (.num (a - b))
  | .int a, .int b => .ok (.int (a - b))
  | _, _ => .error .typeError

/-- Python `x * y` on table values (numeric operands only). -/
def mulV : PVal → PVal → Except PyErr PVal
  | .num a, .num b => .ok (.num (a * b))
  | .num a, .int b => .ok (.num (a * b))
  | .int a, .num b => .ok (.num (a * b))
  | .int a, .int b => .ok (.int (a * b))
  | _, _ => .error .typeError

/-- Python `x / y` (true division: `int / int` is a float;
division by zero raises `ZeroDivisionError`). -/
def divV : PVal → PVal → Except PyErr PVal
  | .num a, .num b => if b = 0 then .error .zeroDivision else .ok (.num (a / b))
  | .num a, .int b =>
      if b = 0 then .error .zeroDivision else .ok (.num (a / (b : Rat)))
  | .int a, .num b => if b = 0 then .error .zeroDivision else .ok (.num (a / b))
  | .int a, .int b =>
      if b = 0 then .error .zeroDivision else .ok (.num ((a : Rat) / (b : Rat)))
  | _, _ => .error .typeError

/-- Python `abs(x)` on table values. -/
def absV : PVal → Except PyErr PVal
  | .num a => .ok (.num |a|)
  | .int a => .ok (.int |a|)
  | .inf _ => .ok (.inf false)
  | .str _ => .error .typeError

/-- Python `round(x)` (banker's rounding: ties go to the even integer),
as used by `int(round(x))` in `JPKReader.get_metadata`. -/
def roundHalfEven (q : Rat) : Int :=
  let f := q.floor
  let r := q - (f : Rat)
  if r < 1/2 then f
  else if 1/2 < r then f + 1
  else if f % 2 = 0 then f else f + 1

/-- Python `int(round(x))` on table values. -/
def toIntRound : PVal → Except PyErr PVal
  | .num q => .ok (.int (roundHalfEven q))
  | .int n => .ok (.int n)
  | .inf _ => .error .overflowError
  | .str _ => .error .typeError

/-- Characters are compared by code point, exactly as Python compares the
characters of strings. -/
def charLtB (a b : Char) : Bool := a.toNat < b.toNat

/-- Python `<` on strings (as lists of characters): strict lexicographic
order by code point. -/
def charsLt : List Char → List Char → Bool
  | [], [] => false
  | [], _ :: _ => true
  | _ :: _, [] => false
  | a :: as, b :: bs =>
      if charLtB a b then true
      else if charLtB b a then false
      else charsLt as bs

/-- Python `list.sort()` key order for strings: `a ≤ b` iff `¬ b < a`. -/
def strLeB (a b : String) : Bool := ! charsLt b.data a.data

/-- Python `sorted(list_of_str)` / `list.sort()`: a stable sort by `<`;
insertion sort is stable, hence produces the same list. -/
def pySortStrings (l : List String) : List String :=
  List.insertionSort (fun a b => strLeB a b = true) l

/-- Python `str.split(ch)` on the character list: splits at every
occurrence of `ch`, keeping empty pieces (`"a//".split("/") = ["a","",""]`,
`"".split("/") = [""]`). -/
def splitCh (c : Char) : List Char → List (List Char)
  | [] => [[]]
  | d :: rest =>
      if d = c then [] :: splitCh c rest
      else
        match splitCh c rest with
        | h :: t => (d :: h) :: t
        | [] => [[d]]

/-- Python `str.count(ch)` for a single character. -/
def countCh (s : String) (c : Char) : Nat := s.data.count c

/-- Python `ch.join(parts)` on character lists. -/
def joinCh (c : Char) : List (List Char) → List Char
  | [] => []
  | [x] => x
  | x :: y :: rest => x ++ c :: joinCh c (y :: rest)

/-- Boolean list-of-chars test used to model Python `str.startswith`. -/
def isPrefList : List Char → List Char → Bool
  | [], _ => true
  | _ :: _, [] => false
  | a :: as, b :: bs => a = b && isPrefList as bs

/-- Python `s.startswith(t)`. -/
def pyStartsWith (s t : String) : Bool := isPrefList t.data s.data

/-- Python `s.endswith(t)`. -/
def pyEndsWith (s t : String) : Bool := isPrefList t.data.reverse s.data.reverse

/-- Substring containment over character lists
(`needle` occurring anywhere in the haystack). -/
def hasSubList (needle : List Char) : List Char → Bool
  | [] => decide (needle = [])
  | c :: rest => isPrefList needle (c :: rest) || hasSubList needle rest

/-- Python `s.count(t) > 0` for a non-empty needle `t`, i.e. the boolean
use `if key.count(".*"):` in `_get_index_segment_properties`. -/
def hasSub (s t : String) : Bool := hasSubList t.data s.data

/-- Python `str.split(sep)` returning strings. -/
def pySplit (s : String) (c : Char) : List String :=
  (splitCh c s.data).map (fun l => String.mk l)

/-- Python `sep.join(parts)` returning a string. -/
def pyJoin (c : Char) (parts : List String) : String :=
  String.mk (joinCh c (parts.map String.data))

/-- Python `str.split()` (no argument): split on whitespace runs,
dropping empty pieces.  `cur` is the (reversed) token being scanned. -/
def wsTokensAux : List Char → List Char → List (List Char)
  | [], cur => if cur = [] then [] else [cur.reverse]
  | c :: rest, cur =>
      if c.isWhitespace then
        if cur = [] then wsTokensAux rest []
        else cur.reverse :: wsTokensAux rest []
      else wsTokensAux rest (c :: cur)

/-- Python `s.split()` returning strings. -/
def pySplitWs (s : String) : List String :=
  (wsTokensAux s.data []).map (fun l => String.mk l)

/-- Numeric test on one path component: models Python `str.isnumeric()`
for the ASCII entry names found in JPK archives (all decimal digits,
non-empty). -/
def isNumComp (l : List Char) : Bool :=
  decide (l ≠ []) && l.all (·.isDigit)

/-- Integer value of a digit string (Python `int(s)` for a string of
decimal digits). -/
def valDigits (l : List Char) : Nat :=
  l.foldl (fun a c => 10 * a + (c.toNat - 48)) 0

/-- Decimal digits of `n`, most significant first, via fuel-bounded
division (fuel `n+1` always suffices); models Python's `str(int)` /
unpadded `"{:d}"` rendering for non-negative integers. -/
def natDigitsAux : Nat → Nat → List Char
  | 0, _ => []
  | fuel + 1, n =>
      if n < 10 then [Nat.digitChar n]
      else natDigitsAux fuel (n / 10) ++ [Nat.digitChar (n % 10)]

/-- Decimal rendering of a natural number as characters. -/
def natToDigits (n : Nat) : List Char := natDigitsAux (n + 1) n

/-- Exactly `k` decimal digits of `u` (leading zeros included), most
significant first; this is `"{:0kd}".format(u)` whenever `u < 10^k`. -/
def padM : Nat → Nat → List Char
  | 0, _ => []
  | k + 1, u => Nat.digitChar (u / 10 ^ k) :: padM k (u % 10 ^ k)

/-- Python `"{:0kd}".format(u)`: left-pad the decimal rendering with
zeros to a minimum width of `k`.  For `u < 10^k` this is the `k`
most-significant-first digits; for wider numbers it is the plain
decimal rendering. -/
def pyFormat0d (k u : Nat) : List Char :=
  if u < 10 ^ k then padM k u else natToDigits u

/-- Ceiling of `log10 n` for `n ≥ 1`: the smallest `k` with `n ≤ 10^k`.
Models `int(np.ceil(np.log10(len(nlist))))` in `JPKReader.files`
(exact for every list length a zip archive can have). -/
def ceilLog10 (n : Nat) : Nat :=
  (((List.range (n + 1)).find? fun k => n ≤ 10 ^ k).getD 0)

/-- The `maxdigits` computed in `JPKReader.files`. -/
def maxdigits (nlist : List String) : Nat := ceilLog10 nlist.length + 1

/-- One path component of the `sortkey` in `JPKReader.files`: purely
numeric components are re-rendered zero-padded to `maxd` digits, others
are kept verbatim. -/
def convComp (maxd : Nat) (comp : List Char) : List Char :=
  if isNumComp comp then pyFormat0d maxd (valDigits comp) else comp

/-- The `sortkey` closure in `JPKReader.files`. -/
def sortkey (maxd : Nat) (x : String) : String :=
  if countCh x '/' ≠ 0 then
    String.mk (joinCh '/' ((splitCh '/' x.data).map (convComp maxd)))
  else x

/-- Comparator used by `sorted(nlist, key=sortkey)`:
`a` may precede `b` iff `sortkey b < sortkey a` fails. -/
def sortkeyLe (maxd : Nat) (a b : String) : Prop :=
  charsLt (sortkey maxd b).data (sortkey maxd a).data = false

instance (maxd : Nat) : DecidableRel (sortkeyLe maxd) := by
  intro a b
  unfold sortkeyLe
  infer_instance

/-- The `files` property of `JPKReader`: the archive name list sorted
(stably) by `sortkey`. -/
def filesSorted (nlist : List String) : List String :=
  List.insertionSort (sortkeyLe (maxdigits nlist)) nlist

/-- Result of Python `float(s)`: a finite value, an infinity, or NaN. -/
inductive PyFloat where
  | finite (q : Rat)
  | infinite (neg : Bool)
  | nan
deriving DecidableEq

/-- ASCII lower-casing of a character list (for `inf` / `nan` detection). -/
def lowerChars (l : List Char) : List Char :=
  l.map fun c => if c.toNat ≥ 65 && c.toNat ≤ 90 then Char.ofNat (c.toNat + 32) else c

/-- Parses an optional exponent part (`e`/`E` already consumed):
optional sign followed by at least one digit. -/
def parseExpDigits (l : List Char) : Option Int :=
  match l with
  | '+' :: rest =>
      if isNumComp rest then some (valDigits rest : Int) else none
  | '-' :: rest =>
      if isNumComp rest then some (-(valDigits rest : Int)) else none
  | rest => if isNumComp rest then some (valDigits rest : Int) else none

/-- Splits a character list at the first `e`/`E`, if any. -/
def splitAtE : List Char → (List Char × Option (List Char))
  | [] => ([], none)
  | c :: rest =>
      if c = 'e' ∨ c = 'E' then ([], some rest)
      else
        let (m, e) := splitAtE rest
        (c :: m, e)

/-- Splits a character list at the first `.`, if any. -/
def splitAtDot : List Char → (List Char × Option (List Char))
  | [] => ([], none)
  | c :: rest =>
      if c = '.' then ([], some rest)
      else
        let (m, e) := splitAtDot rest
        (c :: m, e)

/-- Value of the mantissa `ipart[.fpart]`: requires at least one digit in
total, all characters decimal digits. -/
def parseMantissa (l : List Char) : Option Rat :=
  let (ip, fp) := splitAtDot l
  match fp with
  | none =>
      if isNumComp ip then some ((valDigits ip : Rat)) else none
  | some f =>
      if (ip.all (·.isDigit)) && (f.all (·.isDigit)) && decide (ip ≠ [] ∨ f ≠ [])
      then some ((valDigits ip : Rat) + (valDigits f : Rat) / (10 ^ f.length : Rat))
      else none

/-- Python `float(s)`: strip surrounding whitespace, optional sign, then
either `inf`/`infinity`/`nan` (case-insensitive) or a decimal literal
`digits[.digits][(e|E)[sign]digits]`.  Exact rational arithmetic stands
in for IEEE doubles (none of the verified claims depends on rounding). -/
def pyFloat (s : String) : Option PyFloat :=
  let core := (s.data.dropWhile (·.isWhitespace)).reverse
    |>.dropWhile (·.isWhitespace) |>.reverse
  let (neg, body) :=
    match core with
    | '+' :: rest => (false, rest)
    | '-' :: rest => (true, rest)
    | rest => (false, rest)
  let lower := lowerChars body
  if lower = "inf".data ∨ lower = "infinity".data then some (.infinite neg)
  else if lower = "nan".data then some .nan
  else
    let (mant, ex) := splitAtE body
    match parseMantissa mant with
    | none => none
    | some m =>
        match ex with
        | none => some (.finite (if neg then -m else m))
        | some epart =>
            match parseExpDigits epart with
            | none => none
            | some e =>
                let scaled :=
                  if 0 ≤ e then m * (10 ^ e.toNat : Rat)
                  else m / (10 ^ (-e).toNat : Rat)
                some (.finite (if neg then -scaled else scaled))

/-- Step 5 of `_get_index_segment_properties`: try `float(value)` on every
entry; keep the text on parse failure, store the number on success, and
drop the entry entirely when the parsed value is NaN. -/
def coerceProps (prop : List (String × String)) : PDict :=
  prop.foldr
    (fun kv acc =>
      match pyFloat kv.2 with
      | none => (kv.1, .str kv.2) :: acc
      | some (.finite q) => (kv.1, .num q) :: acc
      | some (.infinite b) => (kv.1, .inf b) :: acc
      | some .nan => acc)
    []

/-- Step 3 of `JPKReader._get_index_segment_properties`: for every key of
the merged table containing the literal token `".*"` (iterated in sorted
key order over a snapshot of the keys), read the pointer value `pindex`,
derive `mediator` (second-to-last dot component, `".".join(key.split(".")[-2:-1])`),
`headkey` (`key.rsplit(".", 2)[0]`) and the prefix
`mediator ++ "." ++ pindex ++ "."`, and copy every shared entry whose key
starts with that prefix to `headkey ++ "." ++ suffix-after-two-components`. -/
def substituteShared (prop psprop : List (String × String)) :
    List (String × String) :=
  let proplist := pySortStrings (prop.map Prod.fst)
  let pslist := pySortStrings (psprop.map Prod.fst)
  proplist.foldl
    (fun acc key =>
      if hasSub key ".*" then
        let pindex := (alookup acc key).getD ""
        let parts := pySplit key '.'
        let mediator :=
          if 2 ≤ parts.length then (parts.get? (parts.length - 2)).getD ""
          else ""
        let headkey := pyJoin '.' (parts.take (max 1 (parts.length - 2)))
        let startid := mediator ++ "." ++ pindex ++ "."
        pslist.foldl
          (fun acc2 k2 =>
            if pyStartsWith k2 startid then
              ainsert acc2
                (headkey ++ "." ++ pyJoin '.' ((pySplit k2 '.').drop 2))
                ((alookup psprop k2).getD "")
            else acc2)
          acc
      else acc)
    prop

/-- `JPKReader._get_index_segment_properties`, as a function of the four
text tables the archive supplies (per-index header, optional per-segment
header, `shared-data/header.properties`, top-level `header.properties`):
merge index and segment tables, run the shared-data substitution, overlay
the general table, then coerce values to floats (dropping NaNs). -/
def get_index_segment_properties (propIndex : List (String × String))
    (propSegment : Option (List (String × String)))
    (propsShared propsGeneral : List (String × String)) : PDict :=
  let prop :=
    match propSegment with
    | none => propIndex
    | some ps => aupdate propIndex ps
  let prop := substituteShared prop propsShared
  let prop := aupdate prop propsGeneral
  coerceProps prop

/-- State of `ArchiveCache`: the ordered map `open_archives` (oldest
first, as an `OrderedDict`), a counter producing fresh handle ids for
`zipfile.ZipFile(...)` calls, and the log of closed handles. -/
structure CacheState where
  cache : List (String × Nat)
  nextHandle : Nat
  closed : List Nat
deriving DecidableEq

/-- `ArchiveCache.max_archives`. -/
def max_archives : Nat := 32

/-- `ArchiveCache.get`: pop a resident path (keeping its handle) or open a
fresh handle, re-insert as most recently used (at the end), then evict and
close the oldest entries beyond `max_archives` (`too_many ≤ 0` evicts
nothing, matching `len - max_archives` clamped by the `if`). -/
def cache_get (s : CacheState) (p : String) : CacheState × Nat :=
  let (arc, cache1, next1) :=
    match alookup s.cache p with
    | some a => (a, apop s.cache p, s.nextHandle)
    | none => (s.nextHandle, s.cache, s.nextHandle + 1)
  let cache2 := cache1 ++ [(p, arc)]
  let tooMany := cache2.length - max_archives
  (⟨cache2.drop tooMany, next1, s.closed ++ (cache2.take tooMany).map Prod.snd⟩,
   arc)

/-- The empty cache (fresh process state). -/
def initCache : CacheState := ⟨[], 0, []⟩

/-- A sequence of `ArchiveCache.get` calls. -/
def cache_run (s : CacheState) (ps : List String) : CacheState :=
  ps.foldl (fun st p => (cache_get st p).1) s

/-- A `Segment` view (`mod_force_distance.Segment`): the segment type, its
boolean flag, and the row mask computed in `__init__`. -/
structure SegmentView where
  which : String
  idx : Bool
  segment_index : List Bool
deriving DecidableEq

/-- Elementwise `array == flag` on a numeric "segment" column (numpy
compares `False`/`True` as `0`/`1`). -/
def maskFromArr (arr : List Nat) (idx : Bool) : List Bool :=
  arr.map (fun x => decide (x = (if idx then 1 else 0)))

/-- `Segment.__init__`: validate `which`, derive the boolean flag, then
build the row mask from the `"segment"` column of `raw_data` if present,
else of `data`, else fail. -/
def segment_init (raw_data dat : List (String × List Nat)) (which : String) :
    Except PyErr SegmentView :=
  if which ≠ "approach" ∧ which ≠ "retract" then
    .error (.valueError "which must be approach or retract")
  else
    let idx := if which = "approach" then false else true
    match alookup raw_data "segment" with
    | some arr => .ok ⟨which, idx, maskFromArr arr idx⟩
    | none =>
        match alookup dat "segment" with
        | some arr => .ok ⟨which, idx, maskFromArr arr idx⟩
        | none => .error (.valueError "Could not identify segment data!")

/-- The two archive layouts `JPKReader.hierarchy` can return. -/
inductive Hierarchy where
  | single
  | indexed
deriving DecidableEq

/-- Python `int(s)` on a string: surrounding whitespace stripped, optional
sign, then at least one decimal digit; anything else raises `ValueError`. -/
def pyIntStr (s : String) : Except PyErr Int :=
  let core := ((s.data.dropWhile (·.isWhitespace)).reverse.dropWhile
    (·.isWhitespace)).reverse
  match core with
  | '+' :: rest =>
      if isNumComp rest then .ok (valDigits rest : Int)
      else .error (.valueError "invalid literal for int")
  | '-' :: rest =>
      if isNumComp rest then .ok (-(valDigits rest : Int))
      else .error (.valueError "invalid literal for int")
  | rest =>
      if isNumComp rest then .ok (valDigits rest : Int)
      else .error (.valueError "invalid literal for int")

/-- One iteration of the entry scan in `JPKReader.get_index_numbers`: an
entry starting with `"index/"`, containing exactly two `/` and ending
with `/` contributes `int(ff.split("/")[1])` (which may raise
`ValueError`); every other entry is skipped. -/
def index_entry_step (acc : List Int) (ff : String) :
    Except PyErr (List Int) :=
  if pyStartsWith ff "index/" && countCh ff '/' == 2 &&
      pyEndsWith ff "/" then do
    let n ← pyIntStr (((pySplit ff '/').get? 1).getD "")
    pure (acc ++ [n])
  else pure acc

/-- `JPKReader.get_index_numbers`: `[0]` for "single"; for "indexed", scan
the (pre-sorted) entry listing in order with `index_entry_step`. -/
def get_index_numbers (h : Hierarchy) (files : List String) :
    Except PyErr (List Int) :=
  match h with
  | .single => .ok [0]
  | .indexed => files.foldlM index_entry_step []

/-- `JPKReader.get_index_segment_path`: look up the enum number for the
curve index (numpy raises `IndexError` for an out-of-range position),
build the segment folder path, and require it to be present in the entry
listing (else `IndexError`).  `self.hierarchy` is always one of the two
known layouts here, so the `NotImplementedError` arm of the source cannot
trigger. -/
def get_index_segment_path (h : Hierarchy) (indexNumbers : List Int)
    (files : List String) (index segment : Nat) : Except PyErr String :=
  match indexNumbers.get? index with
  | none => .error (.indexError "index out of bounds")
  | some enum =>
      let path :=
        match h with
        | .single => "segments/" ++ toString segment ++ "/"
        | .indexed =>
            "index/" ++ toString enum ++ "/segments/" ++ toString segment ++ "/"
      if path ∈ files then .ok path
      else .error (.indexError "Cannot find path for index")

/-- The probing loop of `JPKReader.get_index_segment_numbers`, fuel-bounded:
each successful probe names a distinct entry of `files`, so fuel
`files.length + 1` never runs out before the loop's own exit. -/
def segProbeAux (h : Hierarchy) (indexNumbers : List Int)
    (files : List String) (index : Nat) : Nat → Nat → List Nat
  | 0, _ => []
  | fuel + 1, seg =>
      match get_index_segment_path h indexNumbers files index seg with
      | .error _ => []
      | .ok _ => seg :: segProbeAux h indexNumbers files index fuel (seg + 1)

/-- `JPKReader.get_index_segment_numbers`: probe `seg = 0, 1, 2, …` until
`get_index_segment_path` raises `IndexError`. -/
def get_index_segment_numbers (h : Hierarchy) (indexNumbers : List Int)
    (files : List String) (index : Nat) : List Nat :=
  segProbeAux h indexNumbers files index (files.length + 1) 0

/-- Per-segment facts `JPKReader.get_data` reads from
`get_metadata(index, seg)`: the segment duration and point count. -/
structure SegMD where
  duration : Rat
  pointCount : Nat
deriving DecidableEq

/-- `np.linspace(start, stop, num, endpoint=False)`:
`num` samples `start + i*(stop-start)/num`. -/
def linspaceNoEnd (start stop : Rat) (num : Nat) : List Rat :=
  (List.range num).map (fun i => start + i * ((stop - start) / num))

/-- Columns `JPKReader.get_data` can serve: the two synthesized columns
and the physical channels handled by the external decoder. -/
inductive DataColumn where
  | time
  | segment
  | channel (name : String)
deriving DecidableEq

/-- The `column == "time"` branch of `JPKReader.get_data`: start at the
summed duration of all lower-numbered segments (`0` for segment 0) and
produce `point count` evenly spaced samples over this segment's duration,
endpoint excluded. -/
def time_data (md : Nat → SegMD) (numsegs : List Nat) (seg : Nat) :
    List Rat :=
  let start : Rat :=
    if seg = 0 then 0
    else ((numsegs.filter (fun s => decide (s < seg))).map
      (fun s => (md s).duration)).sum
  linspaceNoEnd start (start + (md seg).duration) (md seg).pointCount

/-- The `column == "segment"` branch of `JPKReader.get_data`:
`np.ones(point count, dtype) * dtype(segment)` with `dtype = bool` for
curves of at most two segments (`bool(seg)` is `0`/`1`) and `np.uint8`
otherwise. -/
def segment_flag_data (md : Nat → SegMD) (numsegs : List Nat) (seg : Nat) :
    List Rat :=
  let v : Rat :=
    if numsegs.length ≤ 2 then (if seg = 0 then 0 else 1)
    else ((seg % 256 : Nat) : Rat)
  List.replicate (md seg).pointCount v

/-- `JPKReader.get_data` for one segment.  `chan` stands for the excluded
external channel locator/decoder pipeline (file listing, `find_column_dat`,
`load_dat_unit` and the unit check) serving the remaining columns. -/
def get_data_seg (chan : Nat → Except PyErr (List Rat)) (md : Nat → SegMD)
    (numsegs : List Nat) (col : DataColumn) (seg : Nat) :
    Except PyErr (List Rat) :=
  match col with
  | .time => .ok (time_data md numsegs seg)
  | .segment => .ok (segment_flag_data md numsegs seg)
  | .channel _ => chan seg

/-- The `segment is None` branch of `JPKReader.get_data`: fetch every
segment's data in ascending segment order and concatenate. -/
def get_data_all (chan : Nat → Except PyErr (List Rat)) (md : Nat → SegMD)
    (numsegs : List Nat) (col : DataColumn) : Except PyErr (List Rat) := do
  let parts ← numsegs.mapM (get_data_seg chan md numsegs col)
  pure parts.flatten

/-- One iteration of the aggregation loop in `JPKReader.get_metadata`
(`segment is None` branch): numerically accumulate `duration` and
`point count` when already present (popping them from the incoming
per-segment record, which raises `KeyError` when absent), then overlay
the remaining keys. -/
def merge_step (md : PDict) (mdap : PDict) : Except PyErr PDict := do
  let s1 ←
    if acontains md "duration" then do
      let old ← agetE md "duration"
      let x ← agetE mdap "duration"
      let s ← addV old x
      pure (ainsert md "duration" s, apop mdap "duration")
    else pure (md, mdap)
  let s2 ←
    if acontains s1.1 "point count" then do
      let old ← agetE s1.1 "point count"
      let x ← agetE s1.2 "point count"
      let s ← addV old x
      pure (ainsert s1.1 "point count" s, apop s1.2 "point count")
    else pure s1
  pure (aupdate s2.1 s2.2)

/-- The `segment is None` branch of `JPKReader.get_metadata`, applied to
the list of per-segment records indexed by ascending segment number: the
source iterates segment numbers in reverse, so the record of the highest
segment seeds the accumulator and segment 0 is applied last. -/
def get_metadata_merged : List PDict → Except PyErr PDict
  | [] => .ok []
  | m :: rest => do
      let acc ← get_metadata_merged rest
      merge_step acc m

/-- The recipe loop of `JPKReader.get_metadata` (both phases): for each
canonical key try its candidate property names in order, first present
candidate wins, keys with no present candidate stay unset. -/
def recipeFold (prop : PDict) (recipe : List (String × List String))
    (init : PDict) : PDict :=
  recipe.foldl
    (fun md kc =>
      match kc.2.find? (fun v => acontains prop v) with
      | some v => ainsert md kc.1 ((alookup prop v).getD (.str ""))
      | none => md)
    init

/-- The `curve_conv` dictionary lookup in `JPKReader.get_metadata`
(a miss raises `KeyError`). -/
def curve_conv (ct : PVal) : Except PyErr String :=
  match ct with
  | .str s =>
      if s = "extend" then .ok "approach"
      else if s = "pause" then .ok "intermediate"
      else if s = "retract" then .ok "retract"
      else .error (.keyError "curve type not in curve_conv")
  | _ => .error (.keyError "curve type not in curve_conv")

/-- The `integer_keys` list of `JPKReader.get_metadata`. -/
def integer_keys : List String :=
  ["grid shape x", "grid shape y", "grid index x", "grid index y",
   "point count"]

/-- Python `"{}".format(v)` on a table value.  The exact decimal rendering
of numbers is abbreviated (no verified claim inspects the produced text). -/
def formatAny (v : PVal) : String :=
  match v with
  | .str s => s
  | .num q => toString q.num ++ (if q.den = 1 then "" else "/" ++ toString q.den)
  | .int n => toString n
  | .inf b => if b then "-inf" else "inf"

/-- Python `"{:g}".format(v)`: fails on strings, renders numbers.  The
exact decimal rendering is abbreviated (no verified claim inspects it). -/
def formatG (v : PVal) : Except PyErr String :=
  match v with
  | .num q =>
      .ok (toString q.num ++ (if q.den = 1 then "" else "/" ++ toString q.den))
  | .int n => .ok (toString n)
  | .inf b => .ok (if b then "-inf" else "inf")
  | .str _ => .error (.valueError "unknown format code g for object of type str")

/-- The rate/speed section of `JPKReader.get_metadata`: only for approach
and retract segments, `rate = point count / segment duration` and
`speed = abs(z start - z end) / segment duration`. -/
def rate_speed_block (md : PDict) (mdim : PDict) (curseg : String) :
    Except PyErr PDict :=
  if curseg = "approach" ∨ curseg = "retract" then do
    let pc ← agetE md "point count"
    let sd ← agetE mdim "segment duration"
    let r ← divV pc sd
    let md1 ← pure (ainsert md ("rate " ++ curseg) r)
    let zs ← agetE mdim "z start"
    let ze ← agetE mdim "z end"
    let diff ← subV zs ze
    let zrange ← absV diff
    let sp ← divV zrange sd
    pure (ainsert md1 ("speed " ++ curseg) sp)
  else pure md

/-- The imaging-mode classification of `JPKReader.get_metadata`:
`num_segments` is the segment count of curve index 0; two segments always
mean `"force-distance"`; with three segments the mode is set only while
processing segment 1, whose curve type must be `"pause"`, branching on the
pause type; any other segment count raises `ValueError`. -/
def imaging_mode_block (md : PDict) (ct : PVal) (mdim : PDict)
    (num_segments segment : Nat) : Except PyErr PDict :=
  if num_segments = 2 then .ok (ainsert md "imaging mode" (.str "force-distance"))
  else if num_segments = 3 then
    if segment = 1 then
      if ct ≠ .str "pause" then
        .error (.valueError "Segment 1 must be of type pause!")
      else
        match alookup mdim "segment pause type" with
        | none => .error (.keyError "segment pause type")
        | some pt =>
            if pt = .str "constant-force-pause" then
              .ok (ainsert md "imaging mode" (.str "creep-compliance"))
            else if pt = .str "constant-height-pause" then
              .ok (ainsert md "imaging mode" (.str "stress-relaxation"))
            else .error (.valueError "Unexpected pause type")
    else .ok md
  else .error (.valueError "Unexpected number of segments")

/-- The `curve id` line of `JPKReader.get_metadata`:
`"{}:{:g}".format(md["session id"], md_im["position index"])`. -/
def curveid_block (md : PDict) (mdim : PDict) : Except PyErr PDict := do
  let sid ← agetE md "session id"
  let pidx ← agetE mdim "position index"
  let g ← formatG pidx
  pure (ainsert md "curve id" (.str (formatAny sid ++ ":" ++ g)))

/-- The setpoint section of `JPKReader.get_metadata`:
`setpoint = setpoint[V] * spring constant * sensitivity` when present. -/
def setpoint_block (md : PDict) (mdim : PDict) : Except PyErr PDict :=
  if acontains mdim "setpoint [V]" then do
    let sv ← agetE mdim "setpoint [V]"
    let sc ← agetE md "spring constant"
    let se ← agetE md "sensitivity"
    let p1 ← mulV sv sc
    let p2 ← mulV p1 se
    pure (ainsert md "setpoint" p2)
  else pure md

/-- The date/time section of `JPKReader.get_metadata`: only for the
approach segment, unpack `md_im["time stamp"].split()` into exactly three
pieces and store the first two. -/
def datetime_block (md : PDict) (mdim : PDict) (curseg : String) :
    Except PyErr PDict :=
  if curseg = "approach" then do
    let ts ← agetE mdim "time stamp"
    match ts with
    | .str s =>
        match pySplitWs s with
        | [d, t, _] => pure (ainsert (ainsert md "date" (.str d)) "time" (.str t))
        | _ => .error (.valueError "cannot unpack time stamp")
    | _ => .error .typeError
  else pure md

/-- One step of the final integer-coercion loop of
`JPKReader.get_metadata`. -/
def int_key_step (md : PDict) (ik : String) : Except PyErr PDict :=
  if acontains md ik then do
    let v ← agetE md ik
    let iv ← toIntRound v
    pure (ainsert md ik iv)
  else pure md

/-- The final integer-coercion loop of `JPKReader.get_metadata`. -/
def int_keys_block (md : PDict) : Except PyErr PDict :=
  integer_keys.foldlM int_key_step md

/-- `JPKReader.get_metadata` for one segment, as a function of the
resolved property table `prop`, the two (external) metadata recipes, the
segment count of curve index 0, the segment number, the curve's enum
number and the archive path. -/
def get_metadata_segment (prop : PDict) (recipe recipe2 : List (String × List String))
    (num_segments0 segment : Nat) (enum : Int) (path : String) :
    Except PyErr PDict :=
  let md := recipeFold prop recipe []
  if ¬ acontains md "spring constant" then .error (.missingMeta "spring constant")
  else if ¬ acontains md "sensitivity" then .error (.missingMeta "sensitivity")
  else
    let md1 := ainsert md "software" (.str "JPK")
    let md2 := ainsert md1 "enum" (.int enum)
    let md3 := ainsert md2 "path" (.str path)
    let mdim := recipeFold prop recipe2 []
    do
      let ct ← agetE mdim "curve type"
      let curseg ← curve_conv ct
      let md4 ← rate_speed_block md3 mdim curseg
      let sd ← agetE mdim "segment duration"
      let md5 ← pure (ainsert md4 ("duration " ++ curseg) sd)
      let md6 ← imaging_mode_block md5 ct mdim num_segments0 segment
      let md7 ← curveid_block md6 mdim
      let md8 ← setpoint_block md7 mdim
      let md9 ← datetime_block md8 mdim curseg
      int_keys_block md9

/-- Shape test of claim C7: entries of the form scanned by
`get_index_numbers` in the "indexed" branch. -/
def indexEntryShape (ff : String) : Bool :=
  pyStartsWith ff "index/" && countCh ff '/' == 2 && pyEndsWith ff "/"

/-- The middle path component `ff.split("/")[1]` read by
`get_index_numbers`. -/
def middleComp (ff : String) : String := ((pySplit ff '/').get? 1).getD ""

/-- The contribution of one listing entry to `get_index_numbers`
(specification-side view of `index_entry_step` for entries whose middle
component parses). -/
def extractIdx (ff : String) : Option Int :=
  if indexEntryShape ff then (pyIntStr (middleComp ff)).toOption else none

/-- Shape tests for metadata values (used to state claim C2). -/
def isNumV (v : Option PVal) : Bool :=
  match v with
  | some (.num _) => true
  | _ => false

/-- Shape test for integer metadata values. -/
def isIntV (v : Option PVal) : Bool :=
  match v with
  | some (.int _) => true
  | _ => false

/-- Numeric `duration` of a per-segment record (0 when absent or of the
wrong shape; claim C2 only uses it under the shape hypotheses). -/
def durOf (m : PDict) : Rat :=
  match alookup m "duration" with
  | some (.num d) => d
  | _ => 0

/-- Integer `point count` of a per-segment record. -/
def pcOf (m : PDict) : Int :=
  match alookup m "point count" with
  | some (.int c) => c
  | _ => 0

/-- Concrete resolved property table used by the claim witnesses: a pause
segment (its metadata derivation involves no floating-point arithmetic). -/
def wProp : PDict :=
  [("k", .num 2), ("s", .num 3), ("sid", .str "abc"),
   ("ct", .str "pause"), ("sd", .num 2), ("pi", .num 4)]

/-- Concrete resolved property table used by the claim witnesses: the
pause segment (segment 1) of a three-segment creep-compliance curve. -/
def wProp3 : PDict :=
  [("k", .num 2), ("s", .num 3), ("sid", .str "abc"),
   ("ct", .str "pause"), ("sd", .num 2), ("pi", .num 4),
   ("pt", .str "constant-force-pause")]

/-- Concrete primary metadata recipe used by the claim witnesses. -/
def wRecipe : List (String × List String) :=
  [("spring constant", ["k"]), ("sensitivity", ["s"]),
   ("session id", ["sid"])]

/-- Concrete secondary metadata recipe used by the claim witnesses. -/
def wRecipe2 : List (String × List String) :=
  [("curve type", ["ct"]), ("segment duration", ["sd"]),
   ("position index", ["pi"]), ("segment pause type", ["pt"]),
   ("time stamp", ["ts"])]

/-- Metadata record produced by `get_metadata_segment` on the witness
inputs for segment 1 of a three-segment curve (empty on error; the
witness proves the call succeeds). -/
def wMDcc : PDict :=
  match get_metadata_segment wProp3 wRecipe wRecipe2 3 1 7 "p.jpk" with
  | .ok m => m
  | .error _ => []

/-- Metadata record produced on the witness inputs used for claim C8. -/
def wMDc8 : PDict :=
  match get_metadata_segment wProp wRecipe wRecipe2 2 0 9 "q.jpk" with
  | .ok m => m
  | .error _ => []

/-- Per-segment records used by the claim C2 witness. -/
def wSeg0 : PDict :=
  [("duration", .num 2), ("point count", .int 10), ("date", .str "2020-01-01")]

/-- Second per-segment record used by the claim C2 witness. -/
def wSeg1 : PDict :=
  [("duration", .num 3), ("point count", .int 20), ("date", .str "2020-01-02")]

/-- Merged record of the claim C2 witness (empty on error; the witness
proves the merge succeeds). -/
def wMerged : PDict :=
  match get_metadata_merged [wSeg0, wSeg1] with
  | .ok m => m
  | .error _ => []

/-! ## Helper lemmas about the dict and string embeddings -/

/-- Keys of an association list. -/
def akeys {α : Type} (d : List (String × α)) : List String := d.map Prod.fst

theorem alookup_ainsert {α : Type} (d : List (String × α)) (k k' : String)
    (v : α) :
    alookup (ainsert d k v) k' = if k = k' then some v else alookup d k' := by
  induction d with
  | nil => simp [ainsert, alookup]
  | cons kv rest ih =>
      obtain ⟨k0, v0⟩ := kv
      by_cases h0 : k0 = k
      · subst h0
        by_cases h1 : k0 = k' <;> simp [ainsert, alookup, h1]
      · by_cases h1 : k0 = k'
        · subst h1
          have : ¬ k = k0 := fun h => h0 h.symm
          simp [ainsert, alookup, h0, this]
        · simp [ainsert, alookup, h0, h1, ih]

theorem alookup_eq_none_iff {α : Type} (d : List (String × α)) (k : String) :
    alookup d k = none ↔ k ∉ akeys d := by
  induction d with
  | nil => simp [alookup, akeys]
  | cons kv rest ih =>
      obtain ⟨k0, v0⟩ := kv
      by_cases h0 : k0 = k
      · subst h0; simp [alookup, akeys]
      · rw [show akeys ((k0, v0) :: rest) = k0 :: akeys rest from rfl]
        rw [show alookup ((k0, v0) :: rest) k = alookup rest k by
          simp [alookup, h0]]
        rw [ih, List.mem_cons]
        constructor
        · intro h hmem
          rcases hmem with h1 | h1
          · exact h0 h1.symm
          · exact h h1
        · intro h h1
          exact h (Or.inr h1)

theorem alookup_apop {α : Type} (d : List (String × α)) (k k' : String) :
    alookup (apop d k) k' = if k' = k then none else alookup d k' := by
  induction d with
  | nil => simp [apop, alookup]
  | cons kv rest ih =>
      obtain ⟨k0, v0⟩ := kv
      by_cases h0 : k0 = k
      · subst h0
        rw [show apop ((k0, v0) :: rest) k0 = apop rest k0 by simp [apop]]
        rw [ih]
        by_cases h1 : k' = k0
        · simp [h1]
        · have h1' : ¬ k0 = k' := fun h => h1 h.symm
          simp [alookup, h1, h1']
      · rw [show apop ((k0, v0) :: rest) k = (k0, v0) :: apop rest k by
          simp [apop, h0]]
        by_cases h1 : k0 = k'
        · subst h1
          simp [alookup, h0]
        · rw [show alookup ((k0, v0) :: apop rest k) k' = alookup (apop rest k) k' by
            simp [alookup, h1]]
          rw [show alookup ((k0, v0) :: rest) k' = alookup rest k' by
            simp [alookup, h1]]
          exact ih

theorem alookup_aupdate_of_none {α : Type} (d e : List (String × α))
    (k : String) (h : alookup e k = none) :
    alookup (aupdate d e) k = alookup d k := by
  induction e generalizing d with
  | nil => simp [aupdate]
  | cons kv rest ih =>
      obtain ⟨k0, v0⟩ := kv
      have h0 : ¬ k0 = k := by
        intro hk; subst hk; simp [alookup] at h
      have hrest : alookup rest k = none := by
        simpa [alookup, h0] using h
      rw [show aupdate d ((k0, v0) :: rest) = aupdate (ainsert d k0 v0) rest from
        rfl]
      rw [ih _ hrest, alookup_ainsert]
      simp [h0]

theorem alookup_aupdate_of_some {α : Type} (d e : List (String × α))
    (k : String) (v : α) (hnd : (akeys e).Nodup) (h : alookup e k = some v) :
    alookup (aupdate d e) k = some v := by
  induction e generalizing d with
  | nil => simp [alookup] at h
  | cons kv rest ih =>
      obtain ⟨k0, v0⟩ := kv
      have hnd' : k0 ∉ akeys rest ∧ (akeys rest).Nodup := by
        rw [show akeys ((k0, v0) :: rest) = k0 :: akeys rest from rfl,
          List.nodup_cons] at hnd
        exact hnd
      rw [show aupdate d ((k0, v0) :: rest) = aupdate (ainsert d k0 v0) rest from
        rfl]
      by_cases h0 : k0 = k
      · subst h0
        have hv : v0 = v := by simpa [alookup] using h
        subst hv
        have hnone : alookup rest k0 = none :=
          (alookup_eq_none_iff rest k0).mpr hnd'.1
        rw [alookup_aupdate_of_none _ _ _ hnone, alookup_ainsert]
        simp
      · have hrest : alookup rest k = some v := by simpa [alookup, h0] using h
        exact ih _ hnd'.2 hrest

theorem akeys_ainsert_mem {α : Type} (d : List (String × α)) (k : String)
    (v : α) (h : k ∈ akeys d) : akeys (ainsert d k v) = akeys d := by
  induction d with
  | nil => simp [akeys] at h
  | cons kv rest ih =>
      obtain ⟨k0, v0⟩ := kv
      by_cases h0 : k0 = k
      · subst h0; simp [ainsert, akeys]
      · have hmem : k ∈ akeys rest := by
          rcases (by simpa [akeys] using h : k = k0 ∨ k ∈ akeys rest) with h1 | h1
          · exact absurd h1.symm h0
          · exact h1
        rw [show ainsert ((k0, v0) :: rest) k v = (k0, v0) :: ainsert rest k v by
          simp [ainsert, h0]]
        rw [show akeys ((k0, v0) :: ainsert rest k v) =
          k0 :: akeys (ainsert rest k v) from rfl]
        rw [ih hmem]
        rfl

/-! ### The Python string order -/

theorem charsLt_cons_iff (a b : Char) (as bs : List Char) :
    charsLt (a :: as) (b :: bs) = true ↔
      (a.toNat < b.toNat ∨ (a.toNat = b.toNat ∧ charsLt as bs = true)) := by
  by_cases h1 : a.toNat < b.toNat
  · simp [charsLt, charLtB, h1]
  · by_cases h2 : b.toNat < a.toNat
    · have hne : ¬ a.toNat = b.toNat := by omega
      simp [charsLt, charLtB, h1, h2, hne]
    · have heq : a.toNat = b.toNat := by omega
      simp [charsLt, charLtB, h1, h2, heq]

theorem charsLt_irrefl (l : List Char) : charsLt l l = false := by
  induction l with
  | nil => rfl
  | cons a as ih =>
      by_cases h : charsLt (a :: as) (a :: as) = true
      · rw [charsLt_cons_iff] at h
        rcases h with h | ⟨_, h⟩
        · omega
        · rw [ih] at h; exact absurd h (by simp)
      · simpa using h

theorem charsLt_trans (x y z : List Char) (hxy : charsLt x y = true)
    (hyz : charsLt y z = true) : charsLt x z = true := by
  induction x generalizing y z with
  | nil =>
      cases y with
      | nil => simp [charsLt] at hxy
      | cons b bs =>
          cases z with
          | nil => simp [charsLt] at hyz
          | cons c cs => simp [charsLt]
  | cons a as ih =>
      cases y with
      | nil => simp [charsLt] at hxy
      | cons b bs =>
          cases z with
          | nil => simp [charsLt] at hyz
          | cons c cs =>
              rw [charsLt_cons_iff] at hxy hyz ⊢
              rcases hxy with h1 | ⟨e1, r1⟩
              · rcases hyz with h2 | ⟨e2, r2⟩
                · exact Or.inl (by omega)
                · exact Or.inl (by omega)
              · rcases hyz with h2 | ⟨e2, r2⟩
                · exact Or.inl (by omega)
                · exact Or.inr ⟨by omega, ih bs cs r1 r2⟩

theorem charsLt_asymm (x y : List Char) (h : charsLt x y = true) :
    charsLt y x = false := by
  by_cases h2 : charsLt y x = true
  · have h3 := charsLt_trans x y x h h2
    rw [charsLt_irrefl] at h3
    exact absurd h3 (by simp)
  · simpa using h2

theorem charsLt_false_total (x y : List Char) (h : charsLt x y = false) :
    charsLt y x = true ∨ y = x := by
  induction x generalizing y with
  | nil =>
      cases y with
      | nil => exact Or.inr rfl
      | cons b bs => simp [charsLt] at h
  | cons a as ih =>
      cases y with
      | nil => exact Or.inl (by simp [charsLt])
      | cons b bs =>
          by_cases h1 : a.toNat < b.toNat
          · exact absurd ((charsLt_cons_iff a b as bs).mpr (Or.inl h1))
              (by simp [h])
          · by_cases h2 : b.toNat < a.toNat
            · exact Or.inl ((charsLt_cons_iff b a bs as).mpr (Or.inl h2))
            · have heq : b.toNat = a.toNat := by omega
              have hrec : charsLt as bs = false := by
                by_cases hr : charsLt as bs = true
                · exact absurd ((charsLt_cons_iff a b as bs).mpr
                    (Or.inr ⟨by omega, hr⟩)) (by simp [h])
                · simpa using hr
              have hab : a = b := by
                apply Char.ext
                apply UInt32.toNat.inj
                exact (by omega : a.toNat = b.toNat)
              subst hab
              rcases ih bs hrec with h3 | h3
              · exact Or.inl ((charsLt_cons_iff a a bs as).mpr
                  (Or.inr ⟨rfl, h3⟩))
              · exact Or.inr (by rw [h3])

theorem charsLt_append_left (P L L' : List Char) (h : charsLt L L' = true) :
    charsLt (P ++ L) (P ++ L') = true := by
  induction P with
  | nil => simpa using h
  | cons p ps ih =>
      rw [List.cons_append, List.cons_append, charsLt_cons_iff]
      exact Or.inr ⟨rfl, ih⟩

theorem charsLt_append_of_eqlen (s t X Y : List Char)
    (hlen : s.length = t.length) (h : charsLt s t = true) :
    charsLt (s ++ X) (t ++ Y) = true := by
  induction s generalizing t with
  | nil =>
      cases t with
      | nil => simp [charsLt] at h
      | cons b bs => simp at hlen
  | cons a as ih =>
      cases t with
      | nil => simp at hlen
      | cons b bs =>
          rw [charsLt_cons_iff] at h
          rw [List.cons_append, List.cons_append, charsLt_cons_iff]
          rcases h with h1 | ⟨e1, r1⟩
          · exact Or.inl h1
          · exact Or.inr ⟨e1, ih bs (by simpa using hlen) r1⟩

/-! ### Decimal padding -/

theorem padM_length (k u : Nat) : (padM k u).length = k := by
  induction k generalizing u with
  | zero => rfl
  | succ k ih => simp [padM, ih]

theorem digitChar_toNat_lt {a b : Nat} (ha : a < 10) (hb : b < 10)
    (hab : a < b) : (Nat.digitChar a).toNat < (Nat.digitChar b).toNat := by
  revert hab hb
  revert b
  revert ha
  revert a
  decide

theorem padM_lt (k u v : Nat) (huv : u < v) (hv : v < 10 ^ k) :
    charsLt (padM k u) (padM k v) = true := by
  induction k generalizing u v with
  | zero =>
      exfalso
      simp at hv
      omega
  | succ k ih =>
      have hd : u / 10 ^ k ≤ v / 10 ^ k := Nat.div_le_div_right (Nat.le_of_lt huv)
      have hv10 : v / 10 ^ k < 10 := by
        have h1 : 10 ^ (k + 1) = 10 ^ k * 10 := by ring
        apply Nat.div_lt_of_lt_mul
        omega
      rw [show padM (k + 1) u =
        Nat.digitChar (u / 10 ^ k) :: padM k (u % 10 ^ k) from rfl]
      rw [show padM (k + 1) v =
        Nat.digitChar (v / 10 ^ k) :: padM k (v % 10 ^ k) from rfl]
      rw [charsLt_cons_iff]
      rcases Nat.lt_or_ge (u / 10 ^ k) (v / 10 ^ k) with hlt | hge
      · exact Or.inl (digitChar_toNat_lt (by omega) hv10 hlt)
      · have heq : u / 10 ^ k = v / 10 ^ k := by omega
        have hmod : u % 10 ^ k < v % 10 ^ k := by
          have h1 := Nat.div_add_mod u (10 ^ k)
          have h2 := Nat.div_add_mod v (10 ^ k)
          rw [← heq] at h2
          omega
        have hmv : v % 10 ^ k < 10 ^ k :=
          Nat.mod_lt _ (Nat.pos_pow_of_pos k (by omega))
        exact Or.inr ⟨by rw [heq], ih _ _ hmod hmv⟩

theorem joinCh_cons_of_ne_nil (c : Char) (p : List Char)
    (L : List (List Char)) (h : L ≠ []) :
    joinCh c (p :: L) = p ++ c :: joinCh c L := by
  cases L with
  | nil => exact absurd rfl h
  | cons q L' => rfl

theorem joinCh_lt_middle (P : List (List Char)) (x y : List Char)
    (S : List (List Char)) (hlen : x.length = y.length)
    (hxy : charsLt x y = true) :
    charsLt (joinCh '/' (P ++ x :: S)) (joinCh '/' (P ++ y :: S)) = true := by
  induction P with
  | nil =>
      cases S with
      | nil => simpa [joinCh] using hxy
      | cons s ss =>
          rw [List.nil_append, List.nil_append,
            joinCh_cons_of_ne_nil '/' x (s :: ss) (by simp),
            joinCh_cons_of_ne_nil '/' y (s :: ss) (by simp)]
          exact charsLt_append_of_eqlen _ _ _ _ hlen hxy
  | cons p P' ih =>
      rw [List.cons_append, List.cons_append,
        joinCh_cons_of_ne_nil '/' p (P' ++ x :: S) (by simp),
        joinCh_cons_of_ne_nil '/' p (P' ++ y :: S) (by simp)]
      have h1 : p ++ '/' :: joinCh '/' (P' ++ x :: S) =
          (p ++ ['/']) ++ joinCh '/' (P' ++ x :: S) := by simp
      have h2 : p ++ '/' :: joinCh '/' (P' ++ y :: S) =
          (p ++ ['/']) ++ joinCh '/' (P' ++ y :: S) := by simp
      rw [h1, h2]
      exact charsLt_append_left _ _ _ ih

theorem splitCh_ne_nil (c : Char) (l : List Char) : splitCh c l ≠ [] := by
  induction l with
  | nil => simp [splitCh]
  | cons d rest ih =>
      by_cases h : d = c
      · simp [splitCh, h]
      · cases hsp : splitCh c rest with
        | nil => exact absurd hsp ih
        | cons hm t => simp [splitCh, h, hsp]

theorem splitCh_length (c : Char) (l : List Char) :
    (splitCh c l).length = l.count c + 1 := by
  induction l with
  | nil => simp [splitCh]
  | cons d rest ih =>
      by_cases h : d = c
      · subst h
        simp [splitCh, List.count_cons, ih]
      · cases hsp : splitCh c rest with
        | nil => exact absurd hsp (splitCh_ne_nil c rest)
        | cons hm t =>
            rw [show splitCh c (d :: rest) = (d :: hm) :: t by
              simp [splitCh, h, hsp]]
            rw [hsp] at ih
            simp only [List.length_cons] at ih ⊢
            rw [List.count_cons]
            simp [h, ih]

theorem sortkey_data_of_split (maxd : Nat) (x : String)
    (comps : List (List Char)) (hsp : splitCh '/' x.data = comps)
    (h2 : 2 ≤ comps.length) :
    (sortkey maxd x).data = joinCh '/' (comps.map (convComp maxd)) := by
  have hcount : countCh x '/' ≠ 0 := by
    have hl := splitCh_length '/' x.data
    rw [hsp] at hl
    unfold countCh
    omega
  unfold sortkey
  rw [if_pos hcount, hsp]

theorem convComp_numeric (maxd : Nat) (us : List Char)
    (hn : isNumComp us = true) (hb : valDigits us < 10 ^ maxd) :
    convComp maxd us = padM maxd (valDigits us) := by
  unfold convComp pyFormat0d
  rw [if_pos hn, if_pos hb]

theorem sortkey_lt_of_numeric_component (maxd : Nat) (a b : String)
    (P S : List (List Char)) (us vs : List Char)
    (hsa : splitCh '/' a.data = P ++ us :: S)
    (hsb : splitCh '/' b.data = P ++ vs :: S)
    (hcomp : 2 ≤ P.length + S.length + 1)
    (hnu : isNumComp us = true) (hnv : isNumComp vs = true)
    (hlt : valDigits us < valDigits vs)
    (hbu : valDigits us < 10 ^ maxd) (hbv : valDigits vs < 10 ^ maxd) :
    charsLt (sortkey maxd a).data (sortkey maxd b).data = true := by
  have hla : 2 ≤ (P ++ us :: S).length := by simp; omega
  have hlb : 2 ≤ (P ++ vs :: S).length := by simp; omega
  rw [sortkey_data_of_split maxd a _ hsa hla,
    sortkey_data_of_split maxd b _ hsb hlb]
  simp only [List.map_append, List.map_cons]
  rw [convComp_numeric maxd us hnu hbu, convComp_numeric maxd vs hnv hbv]
  apply joinCh_lt_middle
  · rw [padM_length, padM_length]
  · exact padM_lt maxd _ _ hlt hbv

instance sortkeyLe_total (maxd : Nat) : IsTotal String (sortkeyLe maxd) := by
  constructor
  intro a b
  by_cases h : charsLt (sortkey maxd b).data (sortkey maxd a).data = true
  · right
    exact charsLt_asymm _ _ h
  · left
    unfold sortkeyLe
    simpa using h

instance sortkeyLe_trans (maxd : Nat) : IsTrans String (sortkeyLe maxd) := by
  constructor
  intro a b c h1 h2
  unfold sortkeyLe at h1 h2 ⊢
  by_cases hT : charsLt (sortkey maxd c).data (sortkey maxd a).data = true
  · exfalso
    rcases charsLt_false_total _ _ h1 with hab | hab
    · rcases charsLt_false_total _ _ h2 with hbc | hbc
      · have := charsLt_trans _ _ _ hab hbc
        have h4 := charsLt_asymm _ _ this
        rw [h4] at hT
        exact absurd hT (by simp)
      · rw [hbc] at hab
        have h4 := charsLt_asymm _ _ hab
        rw [h4] at hT
        exact absurd hT (by simp)
    · rw [hab] at hT
      rw [hT] at h2
      exact absurd h2 (by simp)
  · simpa using hT

/-! ## Claim C4: natural sort of the archive entry listing -/

/-- Claim C4, counterexample: the zero-padding width is derived from the
length of the listing (here `maxdigits = 2`), so the purely numeric
component `100` is not padded to a common width and `"index/100/"` sorts
before `"index/20/"` although `20 < 100` — the smaller numeric value does
not sort first. -/
theorem files_natural_sort_counterexample :
    valDigits ['2', '0'] = 20 ∧ valDigits ['1', '0', '0'] = 100 ∧
      (20 : Nat) < 100 ∧
      filesSorted ["index/20/", "index/100/"] = ["index/100/", "index/20/"] :=
  ⟨by decide, by decide, by decide, by decide⟩

/-- Claim C4 (amended): the listing returned by `files` is the name list
sorted by the natural comparator; for two entries that split on `/` into
the same components except one purely numeric component, the entry with
the smaller integer value sorts first **provided both values fit into
`maxdigits` digits** (`maxdigits = ceil(log10(len)) + 1`) and the entries
contain at least one separator; and the listing
`["index/2/", "index/10/", "index/1/"]` sorts to
`index/1/, index/2/, index/10/`. -/
theorem files_natural_sort_amended (nlist : List String) (a b : String)
    (P S : List (List Char)) (us vs : List Char)
    (hsa : splitCh '/' a.data = P ++ us :: S)
    (hsb : splitCh '/' b.data = P ++ vs :: S)
    (hcomp : 2 ≤ P.length + S.length + 1)
    (hnu : isNumComp us = true) (hnv : isNumComp vs = true)
    (hlt : valDigits us < valDigits vs)
    (hbu : valDigits us < 10 ^ maxdigits nlist)
    (hbv : valDigits vs < 10 ^ maxdigits nlist) :
    (∀ (i j : Nat) (hi : i < (filesSorted nlist).length)
        (hj : j < (filesSorted nlist).length),
        (filesSorted nlist).get ⟨i, hi⟩ = a →
        (filesSorted nlist).get ⟨j, hj⟩ = b → i < j) ∧
      filesSorted ["index/2/", "index/10/", "index/1/"] =
        ["index/1/", "index/2/", "index/10/"] := by
  constructor
  · intro i j hi hj hia hjb
    have hkey := sortkey_lt_of_numeric_component (maxdigits nlist) a b P S us vs
      hsa hsb hcomp hnu hnv hlt hbu hbv
    have hsorted : List.Sorted (sortkeyLe (maxdigits nlist))
        (filesSorted nlist) :=
      List.sorted_insertionSort (sortkeyLe (maxdigits nlist)) nlist
    by_contra hij
    rcases Nat.lt_or_ge j i with hlt2 | hge
    · have hrel := hsorted.rel_get_of_lt
        (show (⟨j, hj⟩ : Fin (filesSorted nlist).length) < ⟨i, hi⟩ from hlt2)
      rw [hia, hjb] at hrel
      unfold sortkeyLe at hrel
      rw [hkey] at hrel
      exact absurd hrel (by simp)
    · have hji : j = i := by omega
      subst hji
      rw [hia] at hjb
      rw [hjb] at hkey
      rw [charsLt_irrefl] at hkey
      exact absurd hkey (by simp)
  · decide

/-- Claim C4, witness: the amended theorem applied to the listing
`["index/2/", "index/10/"]` with the numeric components `2 < 10`, both of
at most `maxdigits = 2` digits, placing `index/2/` (position 0) before
`index/10/` (position 1). -/
theorem files_natural_sort_amended_witness :
    isNumComp ['2'] = true ∧ valDigits ['2'] < valDigits ['1', '0'] ∧
      (0 : Nat) < 1 :=
  ⟨by decide, by decide,
    (files_natural_sort_amended ["index/2/", "index/10/"] "index/2/"
      "index/10/" [['i', 'n', 'd', 'e', 'x']] [[]] ['2'] ['1', '0']
      (by decide) (by decide) (by decide) (by decide) (by decide) (by decide)
      (by decide) (by decide)).1 0 1 (by decide) (by decide) (by decide)
      (by decide)⟩

/-! ## Claim C1: shared-data substitution -/

/-- Claim C1, counterexample: the substitution loop fires only on keys
containing the literal token `".*"`.  The key
`"channel.vDeflection.lcd-info.0"` contains no `".*"`, so with the shared
entry `lcd-info.3.force-segment-header.unit = "N"` the resolved table does
**not** contain `channel.vDeflection.force-segment-header.unit`, contrary
to the claim. -/
theorem lcd_substitution_counterexample :
    hasSub "channel.vDeflection.lcd-info.0" ".*" = false ∧
      alookup [("channel.vDeflection.lcd-info.0", "3")]
        "channel.vDeflection.lcd-info.0" = some "3" ∧
      alookup [("lcd-info.3.force-segment-header.unit", "N")]
        "lcd-info.3.force-segment-header.unit" = some "N" ∧
      alookup
        (get_index_segment_properties
          [("channel.vDeflection.lcd-info.0", "3")] none
          [("lcd-info.3.force-segment-header.unit", "N")] [])
        "channel.vDeflection.force-segment-header.unit" = none :=
  ⟨by decide, by decide, by decide, by decide⟩

/-- Claim C1 (amended): with a trigger key that actually contains the
literal token `".*"` — `channel.vDeflection.lcd-info.* = "3"` — and shared
entry `lcd-info.3.force-segment-header.unit = "N"`, the resolved table
contains `channel.vDeflection.force-segment-header.unit = "N"` (mediator
`lcd-info`, headkey `channel.vDeflection`, prefix `lcd-info.3.`). -/
theorem lcd_substitution_amended :
    hasSub "channel.vDeflection.lcd-info.*" ".*" = true ∧
      alookup
        (get_index_segment_properties
          [("channel.vDeflection.lcd-info.*", "3")] none
          [("lcd-info.3.force-segment-header.unit", "N")] [])
        "channel.vDeflection.force-segment-header.unit" =
        some (PVal.str "N") :=
  ⟨by decide, by decide⟩

/-! ## Claim C6: SegmentView row mask -/

/-- Claim C6, counterexample: with `"segment"` present in **both**
mappings (`raw` holds `[0]`, derived holds `[1]`), `Segment.__init__` for
an approach view takes the mask from `raw_data` (giving `[true]`), not
from the derived mapping (which would give `[false]`). -/
theorem segment_mask_counterexample :
    segment_init [("segment", [0])] [("segment", [1])] "approach" =
      .ok ⟨"approach", false, [true]⟩ ∧
      maskFromArr [1] false = [false] ∧ [true] ≠ ([false] : List Bool) :=
  ⟨by decide, by decide, by decide⟩

/-- Claim C6 (amended): the row mask of a `Segment` view is computed from
the `"segment"` column checked first in the **raw** mapping and only
otherwise in the derived mapping, selecting rows equal to the view's flag
(`false` for approach, `true` for retract); construction fails when
`"segment"` is absent from both mappings (and when `which` is invalid). -/
theorem segment_mask_amended (raw dat : List (String × List Nat))
    (which : String) :
    (∀ arr, (which = "approach" ∨ which = "retract") →
      alookup raw "segment" = some arr →
      segment_init raw dat which =
        .ok ⟨which, if which = "approach" then false else true,
          maskFromArr arr (if which = "approach" then false else true)⟩) ∧
    (∀ arr, (which = "approach" ∨ which = "retract") →
      alookup raw "segment" = none → alookup dat "segment" = some arr →
      segment_init raw dat which =
        .ok ⟨which, if which = "approach" then false else true,
          maskFromArr arr (if which = "approach" then false else true)⟩) ∧
    ((which = "approach" ∨ which = "retract") →
      alookup raw "segment" = none → alookup dat "segment" = none →
      segment_init raw dat which =
        .error (.valueError "Could not identify segment data!")) ∧
    (¬ (which = "approach" ∨ which = "retract") →
      segment_init raw dat which =
        .error (.valueError "which must be approach or retract")) := by
  refine ⟨?_, ?_, ?_, ?_⟩
  · intro arr hv hlook
    have hcond : ¬ (which ≠ "approach" ∧ which ≠ "retract") := by
      rcases hv with h | h <;> simp [h]
    unfold segment_init
    rw [if_neg hcond, hlook]
  · intro arr hv h1 h2
    have hcond : ¬ (which ≠ "approach" ∧ which ≠ "retract") := by
      rcases hv with h | h <;> simp [h]
    unfold segment_init
    rw [if_neg hcond, h1, h2]
  · intro hv h1 h2
    have hcond : ¬ (which ≠ "approach" ∧ which ≠ "retract") := by
      rcases hv with h | h <;> simp [h]
    unfold segment_init
    rw [if_neg hcond, h1, h2]
  · intro hv
    have hcond : which ≠ "approach" ∧ which ≠ "retract" := by
      constructor <;> intro h <;> exact hv (by simp [h])
    unfold segment_init
    rw [if_pos hcond]

/-- Claim C6, witness: the amended theorem applied to a retract view over
a raw mapping holding `segment = [0, 1]` with an (unused) derived mapping,
yielding the mask `[false, true]`. -/
theorem segment_mask_amended_witness :
    segment_init [("segment", [0, 1])] [("segment", [5, 5])] "retract" =
      .ok ⟨"retract", true, [false, true]⟩ :=
  (segment_mask_amended [("segment", [0, 1])] [("segment", [5, 5])]
    "retract").1 [0, 1] (by decide) (by decide)

/-! ## Claim C5: ArchiveCache bounded LRU behaviour -/

theorem apop_length_lt {α : Type} (d : List (String × α)) (p : String) (a : α)
    (h : alookup d p = some a) : (apop d p).length < d.length := by
  induction d with
  | nil => simp [alookup] at h
  | cons kv rest ih =>
      obtain ⟨k0, v0⟩ := kv
      by_cases h0 : k0 = p
      · subst h0
        rw [show apop ((k0, v0) :: rest) k0 = apop rest k0 by simp [apop]]
        have hle := List.length_filter_le (fun kv => decide (kv.1 ≠ k0)) rest
        have : (apop rest k0).length ≤ rest.length := by
          simpa [apop] using hle
        simp only [List.length_cons]
        omega
      · have hrest : alookup rest p = some a := by simpa [alookup, h0] using h
        rw [show apop ((k0, v0) :: rest) p = (k0, v0) :: apop rest p by
          simp [apop, h0]]
        simp only [List.length_cons]
        exact Nat.succ_lt_succ (ih hrest)

theorem cache_get_resident (s : CacheState) (p : String) (a : Nat)
    (h : alookup s.cache p = some a) :
    cache_get s p =
      (⟨(apop s.cache p ++ [(p, a)]).drop
          ((apop s.cache p ++ [(p, a)]).length - max_archives),
        s.nextHandle,
        s.closed ++ ((apop s.cache p ++ [(p, a)]).take
          ((apop s.cache p ++ [(p, a)]).length - max_archives)).map Prod.snd⟩,
       a) := by
  unfold cache_get
  rw [h]

theorem cache_get_fresh (s : CacheState) (p : String)
    (h : alookup s.cache p = none) :
    cache_get s p =
      (⟨(s.cache ++ [(p, s.nextHandle)]).drop
          ((s.cache ++ [(p, s.nextHandle)]).length - max_archives),
        s.nextHandle + 1,
        s.closed ++ ((s.cache ++ [(p, s.nextHandle)]).take
          ((s.cache ++ [(p, s.nextHandle)]).length - max_archives)).map
          Prod.snd⟩,
       s.nextHandle) := by
  unfold cache_get
  rw [h]

theorem cache_get_length (s : CacheState) (p : String) :
    (cache_get s p).1.cache.length ≤ max_archives := by
  cases h : alookup s.cache p with
  | some a =>
      rw [cache_get_resident s p a h]
      simp only [List.length_drop]
      have hm : 0 < max_archives := by decide
      omega
  | none =>
      rw [cache_get_fresh s p h]
      simp only [List.length_drop]
      have hm : 0 < max_archives := by decide
      omega

theorem cache_run_length (ps : List String) (s : CacheState)
    (h : s.cache.length ≤ max_archives) :
    (cache_run s ps).cache.length ≤ max_archives := by
  induction ps generalizing s with
  | nil => simpa [cache_run] using h
  | cons p ps ih =>
      rw [show cache_run s (p :: ps) = cache_run (cache_get s p).1 ps from rfl]
      exact ih _ (cache_get_length s p)

/-- List helper: taking one element off the front of an append with a
non-empty left list. -/
theorem drop_one_append {α : Type} (l1 l2 : List α) (h : 1 ≤ l1.length) :
    (l1 ++ l2).drop 1 = l1.drop 1 ++ l2 := by
  cases l1 with
  | nil => simp at h
  | cons x xs => simp

theorem take_one_append {α : Type} (l1 l2 : List α) (h : 1 ≤ l1.length) :
    (l1 ++ l2).take 1 = l1.take 1 := by
  cases l1 with
  | nil => simp at h
  | cons x xs => simp

/-- Claim C5: `ArchiveCache.get` keeps at most 32 handles open over any
call sequence; a resident path is promoted to most-recently-used without
opening a new handle; a non-resident path opens one fresh handle inserted
as most-recently-used; and when capacity is exceeded the oldest entry is
evicted and its handle closed. -/
theorem archive_cache_lru (s : CacheState) (p : String)
    (hlen : s.cache.length ≤ max_archives) :
    (∀ ps : List String,
      (cache_run initCache ps).cache.length ≤ max_archives) ∧
    ((cache_get s p).1.cache.length ≤ max_archives) ∧
    (∀ a, alookup s.cache p = some a →
      (cache_get s p).2 = a ∧
      (cache_get s p).1.nextHandle = s.nextHandle ∧
      (cache_get s p).1.cache = apop s.cache p ++ [(p, a)] ∧
      (cache_get s p).1.closed = s.closed) ∧
    (alookup s.cache p = none →
      (cache_get s p).2 = s.nextHandle ∧
      (cache_get s p).1.nextHandle = s.nextHandle + 1 ∧
      (s.cache.length < max_archives →
        (cache_get s p).1.cache = s.cache ++ [(p, s.nextHandle)] ∧
        (cache_get s p).1.closed = s.closed) ∧
      (s.cache.length = max_archives →
        (cache_get s p).1.cache = s.cache.drop 1 ++ [(p, s.nextHandle)] ∧
        (cache_get s p).1.closed =
          s.closed ++ (s.cache.take 1).map Prod.snd)) := by
  refine ⟨?_, cache_get_length s p, ?_, ?_⟩
  · intro ps
    exact cache_run_length ps initCache (by simp [initCache])
  · intro a ha
    rw [cache_get_resident s p a ha]
    have hlt := apop_length_lt s.cache p a ha
    have hz : (apop s.cache p ++ [(p, a)]).length - max_archives = 0 := by
      simp only [List.length_append, List.length_cons, List.length_nil]
      omega
    rw [hz]
    simp
  · intro ha
    rw [cache_get_fresh s p ha]
    refine ⟨rfl, rfl, ?_, ?_⟩
    · intro hlt
      have hz : (s.cache ++ [(p, s.nextHandle)]).length - max_archives = 0 := by
        simp only [List.length_append, List.length_cons, List.length_nil]
        omega
      rw [hz]
      simp
    · intro heq
      have hz : (s.cache ++ [(p, s.nextHandle)]).length - max_archives = 1 := by
        simp only [List.length_append, List.length_cons, List.length_nil]
        omega
      rw [hz]
      refine ⟨?_, ?_⟩
      · show (s.cache ++ [(p, s.nextHandle)]).drop 1 = _
        rw [drop_one_append _ _ (by rw [heq]; decide)]
      · show s.closed ++ _ = _
        rw [take_one_append _ _ (by rw [heq]; decide)]

/-- Claim C5, witness: the LRU theorem applied to a one-entry cache and a
non-resident path: the fresh handle `1` is appended, nothing is evicted,
and the global bound holds for the run `["x", "y", "x"]`. -/
theorem archive_cache_lru_witness :
    (cache_run initCache ["x", "y", "x"]).cache.length ≤ max_archives ∧
      (cache_get ⟨[("a", 0)], 1, []⟩ "b").1.cache =
        [("a", 0), ("b", 1)] :=
  ⟨(archive_cache_lru ⟨[("a", 0)], 1, []⟩ "b" (by decide)).1 ["x", "y", "x"],
    by
      have h := (((archive_cache_lru ⟨[("a", 0)], 1, []⟩ "b"
        (by decide)).2.2.2) (by decide)).2.2.1 (by decide)
      exact h.1⟩

/-! ## Claim C7: index enumeration -/

theorem index_fold_ok (files : List String) (acc : List Int)
    (hgood : ∀ ff ∈ files, indexEntryShape ff = true →
      (pyIntStr (middleComp ff)).isOk = true) :
    files.foldlM index_entry_step acc = .ok (acc ++ files.filterMap extractIdx) := by
  induction files generalizing acc with
  | nil => simp only [List.foldlM, List.filterMap_nil, List.append_nil]; rfl
  | cons ff rest ih =>
      have hcons : (ff :: rest).foldlM index_entry_step acc =
          (index_entry_step acc ff) >>=
            (fun a => rest.foldlM index_entry_step a) := by
        simp [List.foldlM_cons]
      rw [hcons]
      by_cases hshape : indexEntryShape ff = true
      · have hok := hgood ff (by simp) hshape
        cases hint : pyIntStr (middleComp ff) with
        | error e => rw [hint] at hok; simp [Except.isOk, Except.toBool] at hok
        | ok n =>
            have hstep : index_entry_step acc ff = .ok (acc ++ [n]) := by
              unfold index_entry_step
              rw [if_pos (by simpa [indexEntryShape] using hshape)]
              simp only [show (((pySplit ff '/').get? 1).getD "") = middleComp ff
                from rfl, hint]
              rfl
            rw [hstep]
            have hbind : (Except.ok (acc ++ [n]) : Except PyErr (List Int)) >>=
                (fun a => rest.foldlM index_entry_step a) =
                rest.foldlM index_entry_step (acc ++ [n]) := rfl
            rw [hbind, ih _ (fun f hf h => hgood f (by simp [hf]) h)]
            have hext : extractIdx ff = some n := by
              unfold extractIdx
              rw [if_pos hshape, hint]
              rfl
            rw [show (ff :: rest).filterMap extractIdx =
              n :: rest.filterMap extractIdx by
                simp [List.filterMap_cons, hext]]
            simp
      · have hstep : index_entry_step acc ff = .ok acc := by
          unfold index_entry_step
          rw [if_neg (by simpa [indexEntryShape] using hshape)]
          rfl
        rw [hstep]
        have hbind : (Except.ok acc : Except PyErr (List Int)) >>=
            (fun a => rest.foldlM index_entry_step a) =
            rest.foldlM index_entry_step acc := rfl
        rw [hbind, ih _ (fun f hf h => hgood f (by simp [hf]) h)]
        have hext : extractIdx ff = none := by
          unfold extractIdx
          rw [if_neg hshape]
        rw [show (ff :: rest).filterMap extractIdx =
          rest.filterMap extractIdx by simp [List.filterMap_cons, hext]]

theorem index_fold_err (files : List String) (acc : List Int)
    (hbad : ∃ ff ∈ files, indexEntryShape ff = true ∧
      (pyIntStr (middleComp ff)).isOk = false) :
    ∃ e, files.foldlM index_entry_step acc = .error e := by
  induction files generalizing acc with
  | nil => simp at hbad
  | cons ff rest ih =>
      have hcons : (ff :: rest).foldlM index_entry_step acc =
          (index_entry_step acc ff) >>=
            (fun a => rest.foldlM index_entry_step a) := by
        simp [List.foldlM_cons]
      rw [hcons]
      by_cases hshape : indexEntryShape ff = true
      · cases hint : pyIntStr (middleComp ff) with
        | error e =>
            refine ⟨e, ?_⟩
            have hstep : index_entry_step acc ff = .error e := by
              unfold index_entry_step
              rw [if_pos (by simpa [indexEntryShape] using hshape)]
              simp only [show (((pySplit ff '/').get? 1).getD "") = middleComp ff
                from rfl, hint]
              rfl
            rw [hstep]
            rfl
        | ok n =>
            have hstep : index_entry_step acc ff = .ok (acc ++ [n]) := by
              unfold index_entry_step
              rw [if_pos (by simpa [indexEntryShape] using hshape)]
              simp only [show (((pySplit ff '/').get? 1).getD "") = middleComp ff
                from rfl, hint]
              rfl
            rw [hstep]
            have hbind : (Except.ok (acc ++ [n]) : Except PyErr (List Int)) >>=
                (fun a => rest.foldlM index_entry_step a) =
                rest.foldlM index_entry_step (acc ++ [n]) := rfl
            rw [hbind]
            apply ih
            rcases hbad with ⟨f, hf, hsh, hbadf⟩
            rcases (by simpa using hf : f = ff ∨ f ∈ rest) with rfl | hfr
            · rw [hint] at hbadf
              simp [Except.isOk, Except.toBool] at hbadf
            · exact ⟨f, hfr, hsh, hbadf⟩
      · have hstep : index_entry_step acc ff = .ok acc := by
          unfold index_entry_step
          rw [if_neg (by simpa [indexEntryShape] using hshape)]
          rfl
        rw [hstep]
        have hbind : (Except.ok acc : Except PyErr (List Int)) >>=
            (fun a => rest.foldlM index_entry_step a) =
            rest.foldlM index_entry_step acc := rfl
        rw [hbind]
        apply ih
        rcases hbad with ⟨f, hf, hsh, hbadf⟩
        rcases (by simpa using hf : f = ff ∨ f ∈ rest) with rfl | hfr
        · exact absurd hsh hshape
        · exact ⟨f, hfr, hsh, hbadf⟩

/-- Claim C7, counterexample: the entry `"index/abc/"` matches the
`index/<component>/` shape but has a non-numeric middle component;
`get_index_numbers` then raises `ValueError` from `int("abc")` instead of
excluding the entry. -/
theorem index_numbers_counterexample :
    indexEntryShape "index/abc/" = true ∧
      isNumComp ("abc" : String).data = false ∧
      get_index_numbers .indexed ["index/abc/"] =
        .error (.valueError "invalid literal for int") :=
  ⟨by decide, by decide, by decide⟩

/-- Claim C7 (amended): for an Indexed archive whose matching entries all
have parseable middle components, `get_index_numbers` returns exactly
their integers in listing order; a matching-shape entry whose middle
component does not parse as an integer makes the call fail with
`ValueError` (it is not excluded). -/
theorem index_numbers_amended (files : List String) :
    ((∀ ff ∈ files, indexEntryShape ff = true →
        (pyIntStr (middleComp ff)).isOk = true) →
      get_index_numbers .indexed files = .ok (files.filterMap extractIdx)) ∧
    ((∃ ff ∈ files, indexEntryShape ff = true ∧
        (pyIntStr (middleComp ff)).isOk = false) →
      ∃ e, get_index_numbers .indexed files = .error e) := by
  constructor
  · intro hgood
    have h := index_fold_ok files [] hgood
    simpa [get_index_numbers] using h
  · intro hbad
    have h := index_fold_err files [] hbad
    simpa [get_index_numbers] using h

/-- Claim C7, witness: the amended theorem applied to the listing
`["index/1/", "junk", "index/10/"]`, returning `[1, 10]` in listing
order. -/
theorem index_numbers_amended_witness :
    get_index_numbers .indexed ["index/1/", "junk", "index/10/"] =
      .ok [1, 10] :=
  (index_numbers_amended ["index/1/", "junk", "index/10/"]).1 (by decide)

/-! ## Claim C10: out-of-range curve index -/

/-- Claim C10: for a curve index at or beyond the length of the enum
array, the first probe of `get_index_segment_numbers` hits the
`IndexError` of the numpy enum lookup inside `get_index_segment_path`,
the loop catches it, and the empty list is returned. -/
theorem segment_numbers_out_of_range (h : Hierarchy)
    (indexNumbers : List Int) (files : List String) (index : Nat)
    (hidx : indexNumbers.length ≤ index) :
    get_index_segment_numbers h indexNumbers files index = [] := by
  unfold get_index_segment_numbers
  simp [segProbeAux, get_index_segment_path, List.getElem?_eq_none hidx]

/-- Claim C10, witness: a two-curve archive probed at curve index 2
returns no segment numbers (rather than an error). -/
theorem segment_numbers_out_of_range_witness :
    get_index_segment_numbers .indexed [0, 5] ["index/0/segments/0/"] 2 =
      [] :=
  segment_numbers_out_of_range .indexed [0, 5] ["index/0/segments/0/"] 2
    (by decide)

/-! ## Claim C9: concatenated data and the time column -/

theorem range_filter_lt (k seg : Nat) (h : seg ≤ k) :
    (List.range k).filter (fun s => decide (s < seg)) = List.range seg := by
  induction k with
  | zero =>
      have : seg = 0 := by omega
      subst this
      rfl
  | succ k ih =>
      rw [List.range_succ, List.filter_append]
      by_cases hs : seg ≤ k
      · rw [ih hs]
        have : (List.filter (fun s => decide (s < seg)) [k]) = [] := by
          simp [List.filter, decide_eq_false (Nat.not_lt.mpr hs)]
        rw [this, List.append_nil]
      · have hq : seg = k + 1 := by omega
        subst hq
        have h1 : (List.range k).filter (fun s => decide (s < k + 1)) =
            List.range k := by
          apply List.filter_eq_self.mpr
          intro a ha
          have := List.mem_range.mp ha
          simp
          omega
        have h2 : (List.filter (fun s => decide (s < k + 1)) [k]) = [k] := by
          simp [List.filter]
        rw [h1, h2, ← List.range_succ]

theorem mapM_ok_of_fn {β : Type} (g : Nat → β) (l : List Nat) :
    l.mapM (fun s => (Except.ok (g s) : Except PyErr β)) = .ok (l.map g) := by
  induction l with
  | nil => rfl
  | cons x xs ih =>
      rw [List.mapM_cons, ih]
      rfl

/-- Claim C9: `get_data(column, idx, None)` is the concatenation, in
ascending segment order, of the per-segment data for every column; the
`time` column always succeeds with exactly that concatenation; and each
segment's time data starts at the summed duration of all lower-numbered
segments. -/
theorem get_data_concatenation (chan : Nat → Except PyErr (List Rat))
    (md : Nat → SegMD) (k : Nat) (col : DataColumn) :
    (∀ parts,
      (List.range k).mapM (get_data_seg chan md (List.range k) col) =
        .ok parts →
      get_data_all chan md (List.range k) col = .ok parts.flatten) ∧
    (∀ seg, seg < k → 0 < (md seg).pointCount →
      (time_data md (List.range k) seg).head? =
        some (((List.range seg).map (fun s => (md s).duration)).sum)) ∧
    (get_data_all chan md (List.range k) .time =
      .ok (((List.range k).map (time_data md (List.range k))).flatten)) := by
  refine ⟨?_, ?_, ?_⟩
  · intro parts hp
    unfold get_data_all
    rw [hp]
    rfl
  · intro seg hseg hpc
    have hstart : (if seg = 0 then (0 : Rat) else
        (((List.range k).filter (fun s => decide (s < seg))).map
          (fun s => (md s).duration)).sum) =
        ((List.range seg).map (fun s => (md s).duration)).sum := by
      by_cases h0 : seg = 0
      · subst h0; simp
      · rw [if_neg h0, range_filter_lt k seg (by omega)]
    unfold time_data
    rw [hstart]
    obtain ⟨m, hm⟩ : ∃ m, (md seg).pointCount = m + 1 :=
      ⟨(md seg).pointCount - 1, by omega⟩
    unfold linspaceNoEnd
    rw [hm, List.range_succ_eq_map]
    simp
  · unfold get_data_all
    have hfn : get_data_seg chan md (List.range k) .time =
        fun seg => .ok (time_data md (List.range k) seg) := rfl
    rw [hfn, mapM_ok_of_fn]
    rfl

/-- Claim C9, witness: two segments of duration 2 with two points each —
segment 1's time data starts at `2` (the duration of segment 0), and the
whole-curve time column succeeds with the ascending concatenation of the
per-segment time data. -/
theorem get_data_concatenation_witness :
    (time_data (fun _ => ⟨2, 2⟩) (List.range 2) 1).head? = some 2 ∧
      get_data_all (fun _ => .ok []) (fun _ => ⟨2, 2⟩) (List.range 2) .time =
        .ok (((List.range 2).map
          (time_data (fun _ => ⟨2, 2⟩) (List.range 2))).flatten) := by
  constructor
  · have h := (get_data_concatenation (fun _ => .ok []) (fun _ => ⟨2, 2⟩) 2
      .time).2.1 1 (by decide) (by decide)
    rw [h]
    simp
  · exact (get_data_concatenation (fun _ => .ok []) (fun _ => ⟨2, 2⟩) 2
      .time).2.2

/-! ## Claim C2: whole-curve metadata aggregation -/

theorem dur_shape (m : PDict) (h : isNumV (alookup m "duration") = true) :
    alookup m "duration" = some (.num (durOf m)) := by
  cases halo : alookup m "duration" with
  | none => rw [halo] at h; simp [isNumV] at h
  | some v =>
      cases v with
      | num q => simp [durOf, halo]
      | str s => rw [halo] at h; simp [isNumV] at h
      | int n => rw [halo] at h; simp [isNumV] at h
      | inf b => rw [halo] at h; simp [isNumV] at h

theorem pc_shape (m : PDict) (h : isIntV (alookup m "point count") = true) :
    alookup m "point count" = some (.int (pcOf m)) := by
  cases halo : alookup m "point count" with
  | none => rw [halo] at h; simp [isIntV] at h
  | some v =>
      cases v with
      | int n => simp [pcOf, halo]
      | str s => rw [halo] at h; simp [isIntV] at h
      | num q => rw [halo] at h; simp [isIntV] at h
      | inf b => rw [halo] at h; simp [isIntV] at h

theorem merge_step_eq (md mdap : PDict) (D d : Rat) (C c : Int)
    (hD : alookup md "duration" = some (.num D))
    (hd : alookup mdap "duration" = some (.num d))
    (hC : alookup md "point count" = some (.int C))
    (hc : alookup mdap "point count" = some (.int c)) :
    merge_step md mdap = .ok (aupdate
      (ainsert (ainsert md "duration" (.num (D + d))) "point count"
        (.int (C + c)))
      (apop (apop mdap "duration") "point count")) := by
  have h1 : acontains md "duration" = true := by simp [acontains, hD]
  have h2 : agetE md "duration" = .ok (.num D) := by simp [agetE, hD]
  have h3 : agetE mdap "duration" = .ok (.num d) := by simp [agetE, hd]
  have h4 : alookup (ainsert md "duration" (.num (D + d))) "point count" =
      some (.int C) := by
    rw [alookup_ainsert]
    simp [hC]
  have h5 : acontains (ainsert md "duration" (.num (D + d))) "point count" =
      true := by simp [acontains, h4]
  have h6 : agetE (ainsert md "duration" (.num (D + d))) "point count" =
      .ok (.int C) := by simp [agetE, h4]
  have h7 : alookup (apop mdap "duration") "point count" = some (.int c) := by
    rw [alookup_apop]
    simp [hc]
  have h8 : agetE (apop mdap "duration") "point count" = .ok (.int c) := by
    simp [agetE, h7]
  simp only [merge_step, h1, if_true, h2, h3, h5, h6, h8, addV,
    Bind.bind, Except.bind, pure, Except.pure]

theorem merge_step_nil (m : PDict) : merge_step [] m = .ok (aupdate [] m) := rfl

theorem akeys_apop_nodup (d : List (String × PVal)) (k : String)
    (h : (akeys d).Nodup) : (akeys (apop d k)).Nodup := by
  have hsub : List.Sublist (akeys (apop d k)) (akeys d) :=
    List.Sublist.map Prod.fst (List.filter_sublist d)
  exact h.sublist hsub

theorem merged_sum (mds : List PDict) (hne : mds ≠ [])
    (hnd : ∀ m ∈ mds, (akeys m).Nodup)
    (hdur : ∀ m ∈ mds, isNumV (alookup m "duration") = true)
    (hpc : ∀ m ∈ mds, isIntV (alookup m "point count") = true) :
    ∃ md, get_metadata_merged mds = .ok md ∧
      alookup md "duration" = some (.num ((mds.map durOf).sum)) ∧
      alookup md "point count" = some (.int ((mds.map pcOf).sum)) := by
  induction mds with
  | nil => exact absurd rfl hne
  | cons m rest ih =>
      have hm0d : alookup m "duration" = some (.num (durOf m)) :=
        dur_shape m (hdur m (by simp))
      have hm0p : alookup m "point count" = some (.int (pcOf m)) :=
        pc_shape m (hpc m (by simp))
      by_cases hrnil : rest = []
      · subst hrnil
        refine ⟨aupdate [] m, ?_, ?_, ?_⟩
        · show Bind.bind (get_metadata_merged []) (fun acc => merge_step acc m) =
            .ok (aupdate [] m)
          rw [show get_metadata_merged [] = .ok [] from rfl]
          exact merge_step_nil m
        · rw [alookup_aupdate_of_some [] m _ _ (hnd m (by simp)) hm0d]
          simp
        · rw [alookup_aupdate_of_some [] m _ _ (hnd m (by simp)) hm0p]
          simp
      · obtain ⟨acc, hacc, hdacc, hpacc⟩ := ih hrnil
          (fun x hx => hnd x (by simp [hx]))
          (fun x hx => hdur x (by simp [hx]))
          (fun x hx => hpc x (by simp [hx]))
        have hstep := merge_step_eq acc m _ _ _ _ hdacc hm0d hpacc hm0p
        have hmerged : get_metadata_merged (m :: rest) =
            .ok (aupdate
              (ainsert (ainsert acc "duration"
                (.num ((rest.map durOf).sum + durOf m))) "point count"
                (.int ((rest.map pcOf).sum + pcOf m)))
              (apop (apop m "duration") "point count")) := by
          show Bind.bind (get_metadata_merged rest)
            (fun acc' => merge_step acc' m) = _
          rw [hacc]
          exact hstep
        refine ⟨_, hmerged, ?_, ?_⟩
        · have hBnone : alookup (apop (apop m "duration") "point count")
              "duration" = none := by
            rw [alookup_apop]
            simp [alookup_apop]
          rw [alookup_aupdate_of_none _ _ _ hBnone, alookup_ainsert]
          rw [if_neg (by decide), alookup_ainsert, if_pos rfl]
          rw [List.map_cons, List.sum_cons, add_comm]
        · have hBnone : alookup (apop (apop m "duration") "point count")
              "point count" = none := by
            rw [alookup_apop]
            simp
          rw [alookup_aupdate_of_none _ _ _ hBnone, alookup_ainsert,
            if_pos rfl]
          rw [List.map_cons, List.sum_cons, add_comm]

/-- Claim C2: `get_metadata(idx, None)` iterates segments in descending
order, so over the ascending list of per-segment records (each holding a
numeric `duration` and an integer `point count` with duplicate-free keys)
the merge succeeds, its `duration` is the sum of all segment durations,
its `point count` is the sum of all segment point counts, and every other
key present in segment 0's record keeps segment 0's value (segment 0 is
applied last and wins). -/
theorem metadata_aggregation (m0 : PDict) (rest : List PDict)
    (hnd : ∀ m ∈ m0 :: rest, (akeys m).Nodup)
    (hdur : ∀ m ∈ m0 :: rest, isNumV (alookup m "duration") = true)
    (hpc : ∀ m ∈ m0 :: rest, isIntV (alookup m "point count") = true) :
    ∃ md, get_metadata_merged (m0 :: rest) = .ok md ∧
      alookup md "duration" = some (.num (((m0 :: rest).map durOf).sum)) ∧
      alookup md "point count" = some (.int (((m0 :: rest).map pcOf).sum)) ∧
      ∀ k v, k ≠ "duration" → k ≠ "point count" →
        alookup m0 k = some v → alookup md k = some v := by
  have hm0d : alookup m0 "duration" = some (.num (durOf m0)) :=
    dur_shape m0 (hdur m0 (by simp))
  have hm0p : alookup m0 "point count" = some (.int (pcOf m0)) :=
    pc_shape m0 (hpc m0 (by simp))
  by_cases hrnil : rest = []
  · subst hrnil
    refine ⟨aupdate [] m0, ?_, ?_, ?_, ?_⟩
    · show Bind.bind (get_metadata_merged []) (fun acc => merge_step acc m0) =
        .ok (aupdate [] m0)
      rw [show get_metadata_merged [] = .ok [] from rfl]
      exact merge_step_nil m0
    · rw [alookup_aupdate_of_some [] m0 _ _ (hnd m0 (by simp)) hm0d]
      simp
    · rw [alookup_aupdate_of_some [] m0 _ _ (hnd m0 (by simp)) hm0p]
      simp
    · intro k v hk1 hk2 hv
      exact alookup_aupdate_of_some [] m0 _ _ (hnd m0 (by simp)) hv
  · obtain ⟨acc, hacc, hdacc, hpacc⟩ := merged_sum rest hrnil
      (fun x hx => hnd x (by simp [hx]))
      (fun x hx => hdur x (by simp [hx]))
      (fun x hx => hpc x (by simp [hx]))
    have hstep := merge_step_eq acc m0 _ _ _ _ hdacc hm0d hpacc hm0p
    have hmerged : get_metadata_merged (m0 :: rest) =
        .ok (aupdate
          (ainsert (ainsert acc "duration"
            (.num ((rest.map durOf).sum + durOf m0))) "point count"
            (.int ((rest.map pcOf).sum + pcOf m0)))
          (apop (apop m0 "duration") "point count")) := by
      show Bind.bind (get_metadata_merged rest)
        (fun acc' => merge_step acc' m0) = _
      rw [hacc]
      exact hstep
    refine ⟨_, hmerged, ?_, ?_, ?_⟩
    · have hBnone : alookup (apop (apop m0 "duration") "point count")
          "duration" = none := by
        rw [alookup_apop]
        simp [alookup_apop]
      rw [alookup_aupdate_of_none _ _ _ hBnone, alookup_ainsert]
      rw [if_neg (by decide), alookup_ainsert, if_pos rfl]
      rw [List.map_cons, List.sum_cons, add_comm]
    · have hBnone : alookup (apop (apop m0 "duration") "point count")
          "point count" = none := by
        rw [alookup_apop]
        simp
      rw [alookup_aupdate_of_none _ _ _ hBnone, alookup_ainsert, if_pos rfl]
      rw [List.map_cons, List.sum_cons, add_comm]
    · intro k v hk1 hk2 hv
      have hB : alookup (apop (apop m0 "duration") "point count") k =
          some v := by
        rw [alookup_apop, if_neg hk2, alookup_apop, if_neg hk1]
        exact hv
      have hBnd : (akeys (apop (apop m0 "duration") "point count")).Nodup :=
        akeys_apop_nodup _ _ (akeys_apop_nodup _ _ (hnd m0 (by simp)))
      exact alookup_aupdate_of_some _ _ _ _ hBnd hB

/-- Claim C2, witness: two segment records with durations `2` and `3` and
point counts `10` and `20`; the merge succeeds, its `duration` and
`point count` are the sums over both records, and the `"date"` key keeps
segment 0's value. -/
theorem metadata_aggregation_witness :
    alookup wMerged "duration" =
      some (.num (([wSeg0, wSeg1].map durOf).sum)) ∧
    alookup wMerged "point count" =
      some (.int (([wSeg0, wSeg1].map pcOf).sum)) ∧
    alookup wMerged "date" = some (.str "2020-01-01") := by
  obtain ⟨md, hmd, h1, h2, h3⟩ := metadata_aggregation wSeg0 [wSeg1]
    (by intro m hm; rcases (by simpa using hm : m = wSeg0 ∨ m = wSeg1) with
      rfl | rfl <;> decide)
    (by intro m hm; rcases (by simpa using hm : m = wSeg0 ∨ m = wSeg1) with
      rfl | rfl <;> decide)
    (by intro m hm; rcases (by simpa using hm : m = wSeg0 ∨ m = wSeg1) with
      rfl | rfl <;> decide)
  have hw : wMerged = md := by
    unfold wMerged
    rw [hmd]
  rw [hw]
  exact ⟨h1, h2, h3 "date" (.str "2020-01-01") (by decide) (by decide)
    (by decide)⟩

/-! ## Claims C3 and C8: per-segment metadata derivation -/

theorem except_bind_ok {α β : Type} (x : Except PyErr α)
    (f : α → Except PyErr β) (b : β) (h : x >>= f = .ok b) :
    ∃ a, x = .ok a ∧ f a = .ok b := by
  cases x with
  | error e => simp [Bind.bind, Except.bind] at h
  | ok a =>
      refine ⟨a, rfl, ?_⟩
      simpa [Bind.bind, Except.bind] using h

theorem agetE_ok {α : Type} (d : List (String × α)) (k : String) (v : α)
    (h : agetE d k = .ok v) : alookup d k = some v := by
  unfold agetE at h
  cases halo : alookup d k with
  | none => rw [halo] at h; simp at h
  | some w => rw [halo] at h; simpa using h

theorem recipeFold_not_mem (prop : PDict)
    (recipe : List (String × List String)) (init : PDict) (k : String)
    (hk : k ∉ recipe.map Prod.fst) :
    alookup (recipeFold prop recipe init) k = alookup init k := by
  induction recipe generalizing init with
  | nil => rfl
  | cons kc rest ih =>
      obtain ⟨k0, cands⟩ := kc
      have hk0 : k0 ≠ k := by
        intro h
        exact hk (by simp [h])
      have hrest : k ∉ rest.map Prod.fst := by
        intro h
        exact hk (by simp [h])
      show alookup (recipeFold prop rest _) k = alookup init k
      rw [ih _ hrest]
      cases hf : cands.find? (fun c => acontains prop c) with
      | none => simp [hf]
      | some c =>
          simp only [hf]
          rw [alookup_ainsert, if_neg hk0]

theorem recipeFold_first_wins (prop : PDict)
    (recipe : List (String × List String)) (init : PDict) (k : String)
    (cands : List String) (hnd : (recipe.map Prod.fst).Nodup)
    (hmem : (k, cands) ∈ recipe) :
    alookup (recipeFold prop recipe init) k =
      match cands.find? (fun c => acontains prop c) with
      | some c => alookup prop c
      | none => alookup init k := by
  induction recipe generalizing init with
  | nil => simp at hmem
  | cons kc rest ih =>
      obtain ⟨k0, cands0⟩ := kc
      have hnd' : k0 ∉ rest.map Prod.fst ∧ (rest.map Prod.fst).Nodup := by
        rw [List.map_cons, List.nodup_cons] at hnd
        exact hnd
      rcases (by simpa using hmem :
          (k = k0 ∧ cands = cands0) ∨ (k, cands) ∈ rest) with ⟨rfl, rfl⟩ | hm
      · have hkrest : k ∉ rest.map Prod.fst := hnd'.1
        show alookup (recipeFold prop rest _) k = _
        rw [recipeFold_not_mem prop rest _ k hkrest]
        cases hf : cands.find? (fun c => acontains prop c) with
        | none => simp [hf]
        | some c =>
            have hpc : acontains prop c = true := List.find?_some hf
            have : ∃ w, alookup prop c = some w := by
              unfold acontains at hpc
              cases halo : alookup prop c with
              | none => rw [halo] at hpc; simp at hpc
              | some w => exact ⟨w, rfl⟩
            obtain ⟨w, hw⟩ := this
            simp only [hf]
            rw [alookup_ainsert, if_pos rfl, hw]
            simp
      · have hk0 : k0 ≠ k := by
          intro h
          subst h
          exact hnd'.1 (by
            have : k0 ∈ rest.map Prod.fst := List.mem_map_of_mem Prod.fst hm
            exact this)
        show alookup (recipeFold prop rest _) k = _
        rw [ih _ hnd'.2 hm]
        cases hf : cands.find? (fun c => acontains prop c) with
        | none =>
            simp only []
            cases hf0 : cands0.find? (fun c => acontains prop c) with
            | none => simp [hf0]
            | some c =>
                simp only [hf0]
                rw [alookup_ainsert, if_neg hk0]
        | some c => simp only []

theorem curve_conv_cases (ct : PVal) (cs : String)
    (h : curve_conv ct = .ok cs) :
    cs = "approach" ∨ cs = "intermediate" ∨ cs = "retract" := by
  cases ct with
  | str s =>
      rw [show curve_conv (.str s) =
        (if s = "extend" then Except.ok "approach"
         else if s = "pause" then Except.ok "intermediate"
         else if s = "retract" then Except.ok "retract"
         else Except.error (PyErr.keyError "curve type not in curve_conv"))
        from rfl] at h
      by_cases h1 : s = "extend"
      · rw [if_pos h1] at h
        exact Or.inl (Except.ok.inj h).symm
      · rw [if_neg h1] at h
        by_cases h2 : s = "pause"
        · rw [if_pos h2] at h
          exact Or.inr (Or.inl (Except.ok.inj h).symm)
        · rw [if_neg h2] at h
          by_cases h3 : s = "retract"
          · rw [if_pos h3] at h
            exact Or.inr (Or.inr (Except.ok.inj h).symm)
          · rw [if_neg h3] at h
            simp at h
  | num q => simp [curve_conv] at h
  | int n => simp [curve_conv] at h
  | inf b => simp [curve_conv] at h

theorem rate_speed_preserve (md mdim : PDict) (curseg : String) (md' : PDict)
    (h : rate_speed_block md mdim curseg = .ok md') (k : String)
    (hk1 : k ≠ "rate " ++ curseg) (hk2 : k ≠ "speed " ++ curseg) :
    alookup md' k = alookup md k := by
  unfold rate_speed_block at h
  by_cases hc : curseg = "approach" ∨ curseg = "retract"
  · rw [if_pos hc] at h
    obtain ⟨pc, hpc, h⟩ := except_bind_ok _ _ _ h
    obtain ⟨sd, hsd, h⟩ := except_bind_ok _ _ _ h
    obtain ⟨r, hr, h⟩ := except_bind_ok _ _ _ h
    obtain ⟨md1, hmd1, h⟩ := except_bind_ok _ _ _ h
    obtain ⟨zs, hzs, h⟩ := except_bind_ok _ _ _ h
    obtain ⟨ze, hze, h⟩ := except_bind_ok _ _ _ h
    obtain ⟨diff, hdiff, h⟩ := except_bind_ok _ _ _ h
    obtain ⟨zrange, hzrange, h⟩ := except_bind_ok _ _ _ h
    obtain ⟨sp, hsp, h⟩ := except_bind_ok _ _ _ h
    have hmd1' : md1 = ainsert md ("rate " ++ curseg) r := by
      simpa [pure, Except.pure] using hmd1.symm
    have hmd' : md' = ainsert md1 ("speed " ++ curseg) sp := by
      simpa [pure, Except.pure] using h.symm
    rw [hmd', hmd1', alookup_ainsert,
      if_neg (fun hh => hk2 hh.symm), alookup_ainsert,
      if_neg (fun hh => hk1 hh.symm)]
  · rw [if_neg hc] at h
    have : md' = md := by simpa [pure, Except.pure] using h.symm
    rw [this]

theorem imaging_cases (md : PDict) (ct : PVal) (mdim : PDict) (n seg : Nat)
    (md' : PDict) (h : imaging_mode_block md ct mdim n seg = .ok md') :
    (n = 2 ∧ md' = ainsert md "imaging mode" (.str "force-distance")) ∨
    (n = 3 ∧ seg ≠ 1 ∧ md' = md) ∨
    (n = 3 ∧ seg = 1 ∧ ct = .str "pause" ∧
      ((alookup mdim "segment pause type" =
          some (.str "constant-force-pause") ∧
        md' = ainsert md "imaging mode" (.str "creep-compliance")) ∨
       (alookup mdim "segment pause type" =
          some (.str "constant-height-pause") ∧
        md' = ainsert md "imaging mode" (.str "stress-relaxation")))) := by
  unfold imaging_mode_block at h
  by_cases h2 : n = 2
  · rw [if_pos h2] at h
    exact Or.inl ⟨h2, (Except.ok.inj h).symm⟩
  · rw [if_neg h2] at h
    by_cases h3 : n = 3
    · rw [if_pos h3] at h
      by_cases hseg : seg = 1
      · rw [if_pos hseg] at h
        by_cases hct : ct = .str "pause"
        · rw [if_neg (by simpa using hct)] at h
          cases hpt : alookup mdim "segment pause type" with
          | none => rw [hpt] at h; simp at h
          | some pt =>
              rw [hpt] at h
              replace h : (if pt = PVal.str "constant-force-pause" then
                  Except.ok (ainsert md "imaging mode"
                    (PVal.str "creep-compliance"))
                else if pt = PVal.str "constant-height-pause" then
                  Except.ok (ainsert md "imaging mode"
                    (PVal.str "stress-relaxation"))
                else Except.error (PyErr.valueError "Unexpected pause type")) =
                  Except.ok md' := h
              by_cases hcf : pt = .str "constant-force-pause"
              · rw [if_pos hcf] at h
                subst hcf
                exact Or.inr (Or.inr ⟨h3, hseg, hct,
                  Or.inl ⟨rfl, (Except.ok.inj h).symm⟩⟩)
              · rw [if_neg hcf] at h
                by_cases hch : pt = .str "constant-height-pause"
                · rw [if_pos hch] at h
                  subst hch
                  exact Or.inr (Or.inr ⟨h3, hseg, hct,
                    Or.inr ⟨rfl, (Except.ok.inj h).symm⟩⟩)
                · rw [if_neg hch] at h
                  simp at h
        · rw [if_pos (by simpa using hct)] at h
          simp at h
      · rw [if_neg hseg] at h
        exact Or.inr (Or.inl ⟨h3, hseg, (Except.ok.inj h).symm⟩)
    · rw [if_neg h3] at h
      simp at h

theorem imaging_preserve (md : PDict) (ct : PVal) (mdim : PDict)
    (n seg : Nat) (md' : PDict)
    (h : imaging_mode_block md ct mdim n seg = .ok md') (k : String)
    (hk : k ≠ "imaging mode") : alookup md' k = alookup md k := by
  rcases imaging_cases md ct mdim n seg md' h with
    ⟨_, rfl⟩ | ⟨_, _, rfl⟩ | ⟨_, _, _, ⟨_, rfl⟩ | ⟨_, rfl⟩⟩
  · rw [alookup_ainsert, if_neg (fun hh => hk hh.symm)]
  · rfl
  · rw [alookup_ainsert, if_neg (fun hh => hk hh.symm)]
  · rw [alookup_ainsert, if_neg (fun hh => hk hh.symm)]

theorem curveid_preserve (md mdim : PDict) (md' : PDict)
    (h : curveid_block md mdim = .ok md') (k : String)
    (hk : k ≠ "curve id") : alookup md' k = alookup md k := by
  unfold curveid_block at h
  obtain ⟨sid, hsid, h⟩ := except_bind_ok _ _ _ h
  obtain ⟨pidx, hpidx, h⟩ := except_bind_ok _ _ _ h
  obtain ⟨g, hg, h⟩ := except_bind_ok _ _ _ h
  have : md' = ainsert md "curve id" (.str (formatAny sid ++ ":" ++ g)) := by
    simpa [pure, Except.pure] using h.symm
  rw [this, alookup_ainsert, if_neg (fun hh => hk hh.symm)]

theorem setpoint_preserve (md mdim : PDict) (md' : PDict)
    (h : setpoint_block md mdim = .ok md') (k : String)
    (hk : k ≠ "setpoint") : alookup md' k = alookup md k := by
  unfold setpoint_block at h
  by_cases hc : acontains mdim "setpoint [V]"
  · rw [if_pos hc] at h
    obtain ⟨sv, hsv, h⟩ := except_bind_ok _ _ _ h
    obtain ⟨sc, hsc, h⟩ := except_bind_ok _ _ _ h
    obtain ⟨se, hse, h⟩ := except_bind_ok _ _ _ h
    obtain ⟨p1, hp1, h⟩ := except_bind_ok _ _ _ h
    obtain ⟨p2, hp2, h⟩ := except_bind_ok _ _ _ h
    have : md' = ainsert md "setpoint" p2 := by
      simpa [pure, Except.pure] using h.symm
    rw [this, alookup_ainsert, if_neg (fun hh => hk hh.symm)]
  · rw [if_neg hc] at h
    have : md' = md := by simpa [pure, Except.pure] using h.symm
    rw [this]

theorem datetime_preserve (md mdim : PDict) (curseg : String) (md' : PDict)
    (h : datetime_block md mdim curseg = .ok md') (k : String)
    (hk1 : k ≠ "date") (hk2 : k ≠ "time") : alookup md' k = alookup md k := by
  unfold datetime_block at h
  by_cases hc : curseg = "approach"
  · rw [if_pos hc] at h
    obtain ⟨ts, hts, h⟩ := except_bind_ok _ _ _ h
    cases ts with
    | str s =>
        replace h : (match pySplitWs s with
          | [d, t, _] => (pure (ainsert (ainsert md "date" (PVal.str d))
              "time" (PVal.str t)) : Except PyErr PDict)
          | _ => Except.error (PyErr.valueError "cannot unpack time stamp")) =
            Except.ok md' := h
        cases hsp : pySplitWs s with
        | nil => rw [hsp] at h; simp at h
        | cons d rest1 =>
            cases rest1 with
            | nil => rw [hsp] at h; simp at h
            | cons t rest2 =>
                cases rest2 with
                | nil => rw [hsp] at h; simp at h
                | cons u rest3 =>
                    cases rest3 with
                    | nil =>
                        rw [hsp] at h
                        replace h : (pure (ainsert (ainsert md "date"
                            (PVal.str d)) "time" (PVal.str t)) :
                            Except PyErr PDict) = Except.ok md' := h
                        have hmd : md' = ainsert (ainsert md "date" (.str d))
                            "time" (.str t) := by
                          simpa [pure, Except.pure] using h.symm
                        rw [hmd, alookup_ainsert,
                          if_neg (fun hh => hk2 hh.symm), alookup_ainsert,
                          if_neg (fun hh => hk1 hh.symm)]
                    | cons v rest4 => rw [hsp] at h; simp at h
    | num q => simp at h
    | int n => simp at h
    | inf b => simp at h
  · rw [if_neg hc] at h
    have : md' = md := by simpa [pure, Except.pure] using h.symm
    rw [this]

theorem int_fold_preserve (ks : List String) (md md' : PDict)
    (h : ks.foldlM int_key_step md = .ok md') (k : String) (hk : k ∉ ks) :
    alookup md' k = alookup md k := by
  induction ks generalizing md with
  | nil =>
      have : md' = md := by simpa [List.foldlM, pure, Except.pure] using h.symm
      rw [this]
  | cons ik ks' ih =>
      have hcons : (ik :: ks').foldlM int_key_step md =
          (int_key_step md ik) >>= (fun m => ks'.foldlM int_key_step m) := by
        simp [List.foldlM_cons]
      rw [hcons] at h
      obtain ⟨m1, hm1, h⟩ := except_bind_ok _ _ _ h
      have hik : k ≠ ik := by
        intro hh
        exact hk (by simp [hh])
      have hks' : k ∉ ks' := by
        intro hh
        exact hk (by simp [hh])
      have hstep : alookup m1 k = alookup md k := by
        unfold int_key_step at hm1
        by_cases hc : acontains md ik
        · rw [if_pos hc] at hm1
          obtain ⟨v, hv, hm1⟩ := except_bind_ok _ _ _ hm1
          obtain ⟨iv, hiv, hm1⟩ := except_bind_ok _ _ _ hm1
          have : m1 = ainsert md ik iv := by
            simpa [pure, Except.pure] using hm1.symm
          rw [this, alookup_ainsert, if_neg (fun hh => hik hh.symm)]
        · rw [if_neg hc] at hm1
          have : m1 = md := by simpa [pure, Except.pure] using hm1.symm
          rw [this]
      rw [ih m1 h hks', hstep]

theorem tail_preserve (md6 md7 md8 md9 md : PDict) (mdim : PDict)
    (curseg : String) (k : String)
    (h7 : curveid_block md6 mdim = .ok md7)
    (h8 : setpoint_block md7 mdim = .ok md8)
    (h9 : datetime_block md8 mdim curseg = .ok md9)
    (h10 : int_keys_block md9 = .ok md)
    (hk1 : k ≠ "curve id") (hk2 : k ≠ "setpoint") (hk3 : k ≠ "date")
    (hk4 : k ≠ "time") (hk5 : k ∉ integer_keys) :
    alookup md k = alookup md6 k := by
  rw [int_fold_preserve integer_keys md9 md h10 k hk5,
    datetime_preserve md8 mdim curseg md9 h9 k hk3 hk4,
    setpoint_preserve md7 mdim md8 h8 k hk2,
    curveid_preserve md6 mdim md7 h7 k hk1]

theorem rate_dur_preserve (md3 mdim : PDict) (curseg : String) (md4 : PDict)
    (sd : PVal) (k : String)
    (hrate : rate_speed_block md3 mdim curseg = .ok md4)
    (hcs : curseg = "approach" ∨ curseg = "intermediate" ∨
      curseg = "retract")
    (hk1 : k ≠ "duration approach") (hk2 : k ≠ "duration intermediate")
    (hk3 : k ≠ "duration retract") (hk4 : k ≠ "rate approach")
    (hk5 : k ≠ "rate retract") (hk6 : k ≠ "speed approach")
    (hk7 : k ≠ "speed retract") (hk8 : k ≠ "rate intermediate")
    (hk9 : k ≠ "speed intermediate") :
    alookup (ainsert md4 ("duration " ++ curseg) sd) k = alookup md3 k := by
  rcases hcs with rfl | rfl | rfl
  · rw [alookup_ainsert, if_neg (fun hh => hk1 hh.symm)]
    exact rate_speed_preserve _ _ _ _ hrate _ hk4 hk6
  · rw [alookup_ainsert, if_neg (fun hh => hk2 hh.symm)]
    exact rate_speed_preserve _ _ _ _ hrate _ hk8 hk9
  · rw [alookup_ainsert, if_neg (fun hh => hk3 hh.symm)]
    exact rate_speed_preserve _ _ _ _ hrate _ hk5 hk7

theorem base_inserts_lookup (md0 : PDict) (enum : Int) (path : String)
    (k : String) (h1 : k ≠ "software") (h2 : k ≠ "enum") (h3 : k ≠ "path") :
    alookup (ainsert (ainsert (ainsert md0 "software" (.str "JPK")) "enum"
      (.int enum)) "path" (.str path)) k = alookup md0 k := by
  rw [alookup_ainsert, if_neg (fun hh => h3 hh.symm), alookup_ainsert,
    if_neg (fun hh => h2 hh.symm), alookup_ainsert,
    if_neg (fun hh => h1 hh.symm)]

theorem gms_ok_decompose (prop : PDict)
    (recipe recipe2 : List (String × List String)) (n seg : Nat)
    (enum : Int) (path : String) (md : PDict)
    (hok : get_metadata_segment prop recipe recipe2 n seg enum path =
      .ok md) :
    ∃ ct curseg md4 sd md6 md7 md8 md9,
      agetE (recipeFold prop recipe2 []) "curve type" = .ok ct ∧
      curve_conv ct = .ok curseg ∧
      rate_speed_block (ainsert (ainsert (ainsert (recipeFold prop recipe [])
        "software" (.str "JPK")) "enum" (.int enum)) "path" (.str path))
        (recipeFold prop recipe2 []) curseg = .ok md4 ∧
      agetE (recipeFold prop recipe2 []) "segment duration" = .ok sd ∧
      imaging_mode_block (ainsert md4 ("duration " ++ curseg) sd) ct
        (recipeFold prop recipe2 []) n seg = .ok md6 ∧
      curveid_block md6 (recipeFold prop recipe2 []) = .ok md7 ∧
      setpoint_block md7 (recipeFold prop recipe2 []) = .ok md8 ∧
      datetime_block md8 (recipeFold prop recipe2 []) curseg = .ok md9 ∧
      int_keys_block md9 = .ok md := by
  by_cases hsc : acontains (recipeFold prop recipe []) "spring constant"
  · by_cases hsens : acontains (recipeFold prop recipe []) "sensitivity"
    · simp only [get_metadata_segment] at hok
      rw [if_neg (by simp [hsc]), if_neg (by simp [hsens])] at hok
      obtain ⟨ct, hct, hok1⟩ := except_bind_ok _ _ _ hok
      obtain ⟨curseg, hconv, hok2⟩ := except_bind_ok _ _ _ hok1
      obtain ⟨md4, hrate, hok3⟩ := except_bind_ok _ _ _ hok2
      obtain ⟨sd, hsd, hok4⟩ := except_bind_ok _ _ _ hok3
      obtain ⟨md5, hmd5, hok5⟩ := except_bind_ok _ _ _ hok4
      obtain ⟨md6, himg, hok6⟩ := except_bind_ok _ _ _ hok5
      obtain ⟨md7, hcid, hok7⟩ := except_bind_ok _ _ _ hok6
      obtain ⟨md8, hsp, hok8⟩ := except_bind_ok _ _ _ hok7
      obtain ⟨md9, hdt, hok9⟩ := except_bind_ok _ _ _ hok8
      have hmd5' : md5 = ainsert md4 ("duration " ++ curseg) sd := by
        simpa [pure, Except.pure] using hmd5.symm
      subst hmd5'
      exact ⟨ct, curseg, md4, sd, md6, md7, md8, md9, hct, hconv, hrate,
        hsd, himg, hcid, hsp, hdt, hok9⟩
    · simp only [get_metadata_segment] at hok
      rw [if_neg (by simp [hsc]), if_pos (by simp [hsens])] at hok
      simp at hok
  · simp only [get_metadata_segment] at hok
    rw [if_pos (by simp [hsc])] at hok
    simp at hok

/-- Claim C3: imaging-mode classification in `get_metadata(idx, seg)` with
`n` the segment count of curve index 0: `n = 2` always stores
`"force-distance"`; for `n = 3` the mode is stored only while processing
segment 1, which must be of raw curve type `"pause"`, with
`constant-force-pause ↦ creep-compliance` and
`constant-height-pause ↦ stress-relaxation` and every other pause type an
error; any other `n` raises an error. -/
theorem imaging_mode_classification (prop : PDict)
    (recipe recipe2 : List (String × List String)) (n seg : Nat)
    (enum : Int) (path : String)
    (hrk : "imaging mode" ∉ recipe.map Prod.fst) :
    (∀ md, n = 2 →
      get_metadata_segment prop recipe recipe2 n seg enum path = .ok md →
      alookup md "imaging mode" = some (.str "force-distance")) ∧
    (∀ md, n = 3 → seg ≠ 1 →
      get_metadata_segment prop recipe recipe2 n seg enum path = .ok md →
      alookup md "imaging mode" = none) ∧
    (∀ md, n = 3 → seg = 1 →
      get_metadata_segment prop recipe recipe2 n seg enum path = .ok md →
      alookup (recipeFold prop recipe2 []) "curve type" =
        some (.str "pause") ∧
      ((alookup (recipeFold prop recipe2 []) "segment pause type" =
          some (.str "constant-force-pause") ∧
        alookup md "imaging mode" = some (.str "creep-compliance")) ∨
       (alookup (recipeFold prop recipe2 []) "segment pause type" =
          some (.str "constant-height-pause") ∧
        alookup md "imaging mode" = some (.str "stress-relaxation")))) ∧
    (n ≠ 2 → n ≠ 3 → ∀ md,
      get_metadata_segment prop recipe recipe2 n seg enum path ≠ .ok md) := by
  refine ⟨?_, ?_, ?_, ?_⟩
  · intro md hn hok
    subst hn
    obtain ⟨ct, curseg, md4, sd, md6, md7, md8, md9, hct, hconv, hrate, hsd,
      himg, hcid, hsp, hdt, hik⟩ := gms_ok_decompose _ _ _ _ _ _ _ _ hok
    rcases imaging_cases _ _ _ _ _ _ himg with ⟨_, hmd6⟩ |
      ⟨h3, _, _⟩ | ⟨h3, _, _, _⟩
    · rw [tail_preserve md6 md7 md8 md9 md _ curseg _ hcid hsp hdt hik
        (by decide) (by decide) (by decide) (by decide) (by decide), hmd6,
        alookup_ainsert, if_pos rfl]
    · simp at h3
    · simp at h3
  · intro md hn hseg hok
    subst hn
    obtain ⟨ct, curseg, md4, sd, md6, md7, md8, md9, hct, hconv, hrate, hsd,
      himg, hcid, hsp, hdt, hik⟩ := gms_ok_decompose _ _ _ _ _ _ _ _ hok
    have hcs := curve_conv_cases ct curseg hconv
    rcases imaging_cases _ _ _ _ _ _ himg with ⟨h2, _⟩ |
      ⟨_, _, hmd6⟩ | ⟨_, hseg1, _⟩
    · simp at h2
    · rw [tail_preserve md6 md7 md8 md9 md _ curseg _ hcid hsp hdt hik
        (by decide) (by decide) (by decide) (by decide) (by decide), hmd6,
        rate_dur_preserve _ _ _ _ _ _ hrate hcs (by decide) (by decide)
          (by decide) (by decide) (by decide) (by decide) (by decide)
          (by decide) (by decide),
        base_inserts_lookup _ _ _ _ (by decide) (by decide) (by decide),
        recipeFold_not_mem prop recipe [] _ hrk]
      rfl
    · exact absurd hseg1 hseg
  · intro md hn hseg hok
    subst hn
    subst hseg
    obtain ⟨ct, curseg, md4, sd, md6, md7, md8, md9, hct, hconv, hrate, hsd,
      himg, hcid, hsp, hdt, hik⟩ := gms_ok_decompose _ _ _ _ _ _ _ _ hok
    rcases imaging_cases _ _ _ _ _ _ himg with ⟨h2, _⟩ |
      ⟨_, hseg1, _⟩ | ⟨_, _, hctp, hdisj⟩
    · simp at h2
    · exact absurd rfl hseg1
    · constructor
      · have := agetE_ok _ _ _ hct
        rw [hctp] at this
        exact this
      · have htail := tail_preserve md6 md7 md8 md9 md _ curseg
          "imaging mode" hcid hsp hdt hik (by decide) (by decide)
          (by decide) (by decide) (by decide)
        rcases hdisj with ⟨hpt, hmd6⟩ | ⟨hpt, hmd6⟩
        · refine Or.inl ⟨hpt, ?_⟩
          rw [htail, hmd6, alookup_ainsert, if_pos rfl]
        · refine Or.inr ⟨hpt, ?_⟩
          rw [htail, hmd6, alookup_ainsert, if_pos rfl]
  · intro hn2 hn3 md hok
    obtain ⟨ct, curseg, md4, sd, md6, md7, md8, md9, hct, hconv, hrate, hsd,
      himg, hcid, hsp, hdt, hik⟩ := gms_ok_decompose _ _ _ _ _ _ _ _ hok
    rcases imaging_cases _ _ _ _ _ _ himg with ⟨h2, _⟩ |
      ⟨h3, _, _⟩ | ⟨h3, _, _, _⟩
    · exact hn2 h2
    · exact hn3 h3
    · exact hn3 h3

/-- Claim C3, witness: the classification theorem applied to segment 1 of
a three-segment curve whose pause type is `constant-force-pause`; the
call succeeds and the stored imaging mode is `creep-compliance`. -/
theorem imaging_mode_classification_witness :
    get_metadata_segment wProp3 wRecipe wRecipe2 3 1 7 "p.jpk" =
      .ok wMDcc ∧
      alookup wMDcc "imaging mode" = some (PVal.str "creep-compliance") := by
  have hok : get_metadata_segment wProp3 wRecipe wRecipe2 3 1 7 "p.jpk" =
      .ok wMDcc := rfl
  refine ⟨hok, ?_⟩
  have h := (imaging_mode_classification wProp3 wRecipe wRecipe2 3 1 7
    "p.jpk" (by decide)).2.2.1 wMDcc rfl rfl hok
  rcases h.2 with ⟨hpt, hmode⟩ | ⟨hpt, hmode⟩
  · exact hmode
  · exact absurd hpt (by decide)

/-- Claim C8: in the primary phase of `get_metadata(idx, seg)` each
canonical key takes the value of its first candidate property present in
the resolved table; a missing `"spring constant"` or `"sensitivity"`
raises `MissingMetadataError`; and every successful call returns a record
with `software = "JPK"`, `enum` the curve's enum number and `path` the
archive path. -/
theorem primary_metadata_requirements (prop : PDict)
    (recipe recipe2 : List (String × List String)) (n seg : Nat)
    (enum : Int) (path : String)
    (hnd : (recipe.map Prod.fst).Nodup) :
    (∀ key cands, (key, cands) ∈ recipe →
      alookup (recipeFold prop recipe []) key =
        match cands.find? (fun c => acontains prop c) with
        | some c => alookup prop c
        | none => none) ∧
    (acontains (recipeFold prop recipe []) "spring constant" = false →
      get_metadata_segment prop recipe recipe2 n seg enum path =
        .error (.missingMeta "spring constant")) ∧
    (acontains (recipeFold prop recipe []) "spring constant" = true →
      acontains (recipeFold prop recipe []) "sensitivity" = false →
      get_metadata_segment prop recipe recipe2 n seg enum path =
        .error (.missingMeta "sensitivity")) ∧
    (∀ md, get_metadata_segment prop recipe recipe2 n seg enum path =
        .ok md →
      alookup md "software" = some (.str "JPK") ∧
      alookup md "enum" = some (.int enum) ∧
      alookup md "path" = some (.str path)) := by
  refine ⟨?_, ?_, ?_, ?_⟩
  · intro key cands hmem
    rw [recipeFold_first_wins prop recipe [] key cands hnd hmem]
    cases cands.find? (fun c => acontains prop c) <;> rfl
  · intro h
    simp only [get_metadata_segment]
    rw [if_pos (by simp [h])]
  · intro h1 h2
    simp only [get_metadata_segment]
    rw [if_neg (by simp [h1]), if_pos (by simp [h2])]
  · intro md hok
    obtain ⟨ct, curseg, md4, sd, md6, md7, md8, md9, hct, hconv, hrate, hsd,
      himg, hcid, hsp, hdt, hik⟩ := gms_ok_decompose _ _ _ _ _ _ _ _ hok
    have hcs := curve_conv_cases ct curseg hconv
    have hchain : ∀ k, k ≠ "imaging mode" → k ≠ "curve id" →
        k ≠ "setpoint" → k ≠ "date" → k ≠ "time" → k ∉ integer_keys →
        k ≠ "duration approach" → k ≠ "duration intermediate" →
        k ≠ "duration retract" → k ≠ "rate approach" → k ≠ "rate retract" →
        k ≠ "speed approach" → k ≠ "speed retract" →
        k ≠ "rate intermediate" → k ≠ "speed intermediate" →
        alookup md k = alookup (ainsert (ainsert (ainsert
          (recipeFold prop recipe []) "software" (.str "JPK")) "enum"
          (.int enum)) "path" (.str path)) k := by
      intro k hk1 hk2 hk3 hk4 hk5 hk6 hk7 hk8 hk9 hk10 hk11 hk12 hk13
        hk14 hk15
      rw [tail_preserve md6 md7 md8 md9 md _ curseg k hcid hsp hdt hik
        hk2 hk3 hk4 hk5 hk6,
        imaging_preserve _ _ _ _ _ _ himg k hk1,
        rate_dur_preserve _ _ _ _ _ _ hrate hcs hk7 hk8 hk9 hk10 hk11
          hk12 hk13 hk14 hk15]
    refine ⟨?_, ?_, ?_⟩
    · rw [hchain "software" (by decide) (by decide) (by decide) (by decide)
        (by decide) (by decide) (by decide) (by decide) (by decide)
        (by decide) (by decide) (by decide) (by decide) (by decide)
        (by decide)]
      rw [alookup_ainsert, if_neg (by decide), alookup_ainsert,
        if_neg (by decide), alookup_ainsert, if_pos rfl]
    · rw [hchain "enum" (by decide) (by decide) (by decide) (by decide)
        (by decide) (by decide) (by decide) (by decide) (by decide)
        (by decide) (by decide) (by decide) (by decide) (by decide)
        (by decide)]
      rw [alookup_ainsert, if_neg (by decide), alookup_ainsert, if_pos rfl]
    · rw [hchain "path" (by decide) (by decide) (by decide) (by decide)
        (by decide) (by decide) (by decide) (by decide) (by decide)
        (by decide) (by decide) (by decide) (by decide) (by decide)
        (by decide)]
      rw [alookup_ainsert, if_pos rfl]

/-- Claim C8, witness: the primary-phase theorem applied to a concrete
resolved table containing spring constant and sensitivity; the call
succeeds and the record carries `software = "JPK"`, `enum = 9` and
`path = "q.jpk"`. -/
theorem primary_metadata_requirements_witness :
    get_metadata_segment wProp wRecipe wRecipe2 2 0 9 "q.jpk" =
      .ok wMDc8 ∧
      alookup wMDc8 "software" = some (PVal.str "JPK") ∧
      alookup wMDc8 "enum" = some (PVal.int 9) ∧
      alookup wMDc8 "path" = some (PVal.str "q.jpk") := by
  have hok : get_metadata_segment wProp wRecipe wRecipe2 2 0 9 "q.jpk" =
      .ok wMDc8 := rfl
  have h := (primary_metadata_requirements wProp wRecipe wRecipe2 2 0 9
    "q.jpk" (by decide)).2.2.2 wMDc8 hok
  exact ⟨hok, h.1, h.2.1, h.2.2⟩
